import Mathlib

/-! Opportunities4Africa bot: the discovery-and-posting pipeline.

A shallow embedding of `src/index.js`.

* A JavaScript string is the list of its UTF-16 code units (`JStr`), so that
  `length`, `substring` and `charCodeAt` mean what they mean in the source.
* An absent value (`undefined`) is `none`.
* The module-level variables `postedOpportunities`, `statsCounter`, `botState`
  and `managedChannels` are the fields of `State`, passed explicitly.
* What the program cannot decide by itself (the contents of a feed, whether a
  send succeeds, the clock, the date routines of the engine) is an argument.
-/

namespace O4A

/-! ## Strings -/

/-- A JavaScript string: its UTF-16 code units in order. -/
abbrev JStr := List Nat

/-- UTF-16 code units of one Unicode scalar value. -/
def utf16 (c : Char) : List Nat :=
  if c.toNat < 65536 then [c.toNat]
  else [55296 + (c.toNat - 65536) / 1024, 56320 + (c.toNat - 65536) % 1024]

/-- The JavaScript string written by a literal. -/
def js (s : String) : JStr := s.toList.flatMap utf16

/-- Truthiness of an optional string: `undefined` and `''` are falsy. -/
def truthy : Option JStr → Bool
  | none => false
  | some [] => false
  | some (_ :: _) => true

/-- The operator `a || b` on optional strings. -/
def jsOr (a b : Option JStr) : Option JStr := if truthy a then a else b

/-- Code units matched by `\s`, which are also the ones `trim` removes
(ECMAScript WhiteSpace and LineTerminator). -/
def isSpace (c : Nat) : Bool :=
  (9 ≤ c && c ≤ 13) || c == 32 || c == 160 || c == 5760 || (8192 ≤ c && c ≤ 8202)
    || c == 8232 || c == 8233 || c == 8239 || c == 8287 || c == 12288 || c == 65279

/-- Code unit of `<`. -/
def LT_SIGN : Nat := 60

/-- Code unit of `>`. -/
def GT_SIGN : Nat := 62

/-- Matcher of `text.replace(/<[^>]*>/g, '')`. Outside a match (`inTag = false`) a `<`
starts a match exactly when some `>` follows it, since `[^>]*` then runs up to
the first such `>`; inside a match everything up to and including that first
`>` is dropped and scanning resumes behind it. -/
def stripTagsAux : Bool → JStr → JStr
  | _, [] => []
  | false, c :: rest =>
      if c == LT_SIGN && rest.contains GT_SIGN then stripTagsAux true rest
      else c :: stripTagsAux false rest
  | true, c :: rest =>
      if c == GT_SIGN then stripTagsAux false rest else stripTagsAux true rest

/-- The call `text.replace(/<[^>]*>/g, '')`. -/
def stripTags (s : JStr) : JStr := stripTagsAux false s

/-- Matcher of `text.replace(/\s+/g, ' ')`: the first unit of a whitespace run is
replaced by one space and the rest of the run (`inRun = true`) is dropped. -/
def collapseSpacesAux : Bool → JStr → JStr
  | _, [] => []
  | inRun, c :: rest =>
      if isSpace c then
        if inRun then collapseSpacesAux true rest else 32 :: collapseSpacesAux true rest
      else c :: collapseSpacesAux false rest

/-- The call `text.replace(/\s+/g, ' ')`. -/
def collapseSpaces (s : JStr) : JStr := collapseSpacesAux false s

/-- The method `String.prototype.trim`. -/
def trim (s : JStr) : JStr := ((s.dropWhile isSpace).reverse.dropWhile isSpace).reverse

/-- Source: `cleanText(text)`. -/
def cleanText (text : Option JStr) : JStr :=
  match text with
  | none => []
  | some [] => []
  | some (c :: cs) => trim (collapseSpaces (stripTags (c :: cs)))

/-- The placeholder `summarizeText` returns when there is no text. -/
def NO_DESCRIPTION : JStr := js "No description available."

/-- The marker `'...'` appended by `summarizeText`. -/
def ELLIPSIS : JStr := js "..."

/-- Source: `summarizeText(text, maxLength)`; `maxLength` is passed explicitly
(its default in the source is 250). -/
def summarizeText (text : Option JStr) (maxLength : Nat) : JStr :=
  match text with
  | none => NO_DESCRIPTION
  | some [] => NO_DESCRIPTION
  | some (c :: cs) =>
      let t := trim (collapseSpaces (stripTags (c :: cs)))
      if t.length ≤ maxLength then t else t.take maxLength ++ ELLIPSIS

/-! ## Identifiers -/

/-- The conversion ToInt32: wrap an integer into the signed 32-bit range. -/
def toInt32 (x : Int) : Int := (x + 2147483648) % 4294967296 - 2147483648

/-- One round of the loop of `generateOpportunityId`:
`hash = ((hash << 5) - hash) + text.charCodeAt(i); hash = hash & hash`.
The shift wraps to 32 bits, the subtraction and addition are exact (all values
stay far below 2^53), and `hash & hash` wraps again. -/
def hashStep (hash : Int) (c : Nat) : Int :=
  toInt32 (toInt32 (hash * 32) - hash + (c : Int))

/-- The loop of `generateOpportunityId` over the code units of `text`. -/
def hashLoop (text : JStr) : Int := text.foldl hashStep 0

/-- Digit of `Number.prototype.toString(radix)`: `0-9` then `a-z`. -/
def digitUnit (d : Nat) : Nat := if d < 10 then 48 + d else 87 + d

/-- Digits of `n` in base `radix`, most significant first, in front of `acc`. -/
def toRadixAux (radix : Nat) : Nat → Nat → JStr → JStr
  | 0, _, acc => acc
  | fuel + 1, n, acc =>
      if n < radix then digitUnit n :: acc
      else toRadixAux radix fuel (n / radix) (digitUnit (n % radix) :: acc)

/-- The call `n.toString(radix)` for a non-negative integer `n`. -/
def toRadix (radix n : Nat) : JStr := toRadixAux radix (n + 1) n []

/-- Source: `generateOpportunityId(text)`. The result `none` stands for the
TypeError raised by `text.length` when `text` is `undefined`. -/
def generateOpportunityId (text : Option JStr) : Option JStr :=
  match text with
  | none => none
  | some s => some (toRadix 36 (hashLoop s).natAbs)

/-! ## Dates -/

/-- The date routines of the engine, which the program only calls.
`parse s` is the time value of `new Date(s)`, `none` for an Invalid Date;
`monthDay t` is `toLocaleDateString('en-US', { month: 'short', day: 'numeric' })`
of a valid date. -/
structure DateEngine where
  parse : JStr → Option Int
  monthDay : Int → JStr

/-- The placeholder of `formatDate`. -/
def RECENTLY_POSTED : JStr := js "Recently posted"

/-- What `toLocaleDateString` returns for an Invalid Date (it does not raise). -/
def INVALID_DATE : JStr := js "Invalid Date"

/-- The `try` block of `formatDate`; `none` would stand for a raised exception.
Neither `new Date(dateString)` nor `toLocaleDateString` with these arguments
raises, so the block always yields a string. -/
def formatDateTry (E : DateEngine) (dateString : JStr) : Option JStr :=
  match E.parse dateString with
  | none => some INVALID_DATE
  | some t => some (E.monthDay t)

/-- Source: `formatDate(dateString)`. -/
def formatDate (E : DateEngine) (dateString : Option JStr) : JStr :=
  match dateString with
  | none => RECENTLY_POSTED
  | some [] => RECENTLY_POSTED
  | some (c :: cs) =>
      match formatDateTry E (c :: cs) with
      | some label => label
      | none => RECENTLY_POSTED

/-! ## Data model -/

/-- The keys of the table `sources`. -/
inductive Category where
  | scholarships
  | volunteer
  | ngo
  | tech
  deriving DecidableEq, Repr

/-- The key of a category as a string. -/
def Category.key : Category → JStr
  | .scholarships => js "scholarships"
  | .volunteer => js "volunteer"
  | .ngo => js "ngo"
  | .tech => js "tech"

/-- One entry of an `rss` list of `sources`. -/
structure Source where
  name : JStr
  url : JStr
  deriving DecidableEq, Repr

/-- An item of a parsed feed, with the fields the program reads. -/
structure FeedItem where
  title : Option JStr
  link : Option JStr
  guid : Option JStr
  contentSnippet : Option JStr
  content : Option JStr
  pubDate : Option JStr
  deriving DecidableEq, Repr

/-- The record pushed by `scrapeRSSFeed`. -/
structure Opportunity where
  title : JStr
  link : JStr
  description : JStr
  date : JStr
  source : JStr
  category : Category
  id : JStr
  deriving DecidableEq, Repr

/-- The object `statsCounter`. -/
structure Stats where
  total : Nat
  scholarships : Nat
  volunteer : Nat
  ngo : Nat
  tech : Nat
  lastScan : Option JStr
  scansToday : Nat
  deriving DecidableEq, Repr

/-- The object `botState`; the two dates are clock readings. -/
structure BotState where
  isPaused : Bool
  pausedAt : Option Nat
  resumedAt : Option Nat
  deriving DecidableEq, Repr

/-- An element of `managedChannels`. -/
structure Channel where
  id : JStr
  name : JStr
  active : Bool
  addedAt : Nat
  totalPosts : Nat
  deriving DecidableEq, Repr

/-- The mutable module-level variables. `postedOpportunities` is a `Set`, kept
here as the list of its elements in insertion order. -/
structure State where
  postedOpportunities : List JStr
  statsCounter : Stats
  botState : BotState
  managedChannels : List Channel
  deriving DecidableEq, Repr

/-- The method `Set.prototype.add`. -/
def setAdd (s : List JStr) (x : JStr) : List JStr := if s.contains x then s else s ++ [x]

/-- The statement `statsCounter[category]++`. -/
def Stats.bump (s : Stats) : Category → Stats
  | .scholarships => { s with scholarships := s.scholarships + 1 }
  | .volunteer => { s with volunteer := s.volunteer + 1 }
  | .ngo => { s with ngo := s.ngo + 1 }
  | .tech => { s with tech := s.tech + 1 }

/-- Read `statsCounter[category]`. -/
def Stats.get (s : Stats) : Category → Nat
  | .scholarships => s.scholarships
  | .volunteer => s.volunteer
  | .ngo => s.ngo
  | .tech => s.tech

/-- The table `sources`, as the list of its (category, source) pairs in the order
in which the two nested loops of `discoverAndPostOpportunities` visit them. -/
def sources : List (Category × Source) :=
  [ (.scholarships, ⟨js "Opportunity Desk", js "https://opportunitydesk.org/feed/"⟩),
    (.scholarships,
      ⟨js "Opportunities for Africans", js "https://www.opportunitiesforafricans.com/feed/"⟩),
    (.volunteer, ⟨js "Go Volunteer Africa", js "https://govolunteerafrica.org/feed/"⟩),
    (.ngo, ⟨js "ReliefWeb RSS", js "https://reliefweb.int/updates/rss.xml"⟩),
    (.tech, ⟨js "RemoteOK", js "https://remoteok.com/remote-dev-jobs.rss"⟩) ]

/-! ## Observable actions -/

/-- The text of a reply sent with `ctx.reply`: a fixed text, or one of the
templates, given by the values interpolated into it. -/
inductive Reply where
  | plain (text : JStr)
  | welcome (isPaused : Bool) (total : Nat)
  | dashboard (isPaused : Bool) (stats : Stats)
  | scanComplete (total : Nat)
  | sourcesList (registry : List (Category × Source))
  | settings (channelId : JStr) (autoScan : Bool)
  deriving DecidableEq, Repr

/-- What the program does to the outside, in the order in which it does it.
`scanStart` is the entry into `discoverAndPostOpportunities`; `deliver opp store`
is a call `postToChannels(opp)`, with the contents of `postedOpportunities` at
that moment; `send` is a call of `bot.telegram.sendMessage` and its outcome. -/
inductive Event where
  | scanStart
  | fetch (source : JStr) (found : List Opportunity)
  | deliver (opp : Opportunity) (store : List JStr)
  | send (channelId : JStr) (message : JStr) (ok : Bool)
  | reply (r : Reply)
  deriving DecidableEq, Repr

/-- The calls `postToChannels(opp)` recorded in a log, each with the store at
the moment it began. -/
def deliveries : List Event → List (Opportunity × List JStr)
  | [] => []
  | .deliver opp store :: rest => (opp, store) :: deliveries rest
  | _ :: rest => deliveries rest

/-! ## Feed fetcher -/

/-- The loop `for (const item of feed.items.slice(0, 3))` of `scrapeRSSFeed`, run
on the items still to visit with the array `opportunities` built so far.
`none` stands for an exception raised in the body. -/
def scrapeLoop (E : DateEngine) (source : Source) (category : Category) (st : State) :
    List FeedItem → List Opportunity → Option (List Opportunity)
  | [], opportunities => some opportunities
  | item :: rest, opportunities =>
      match generateOpportunityId (jsOr item.link item.guid), jsOr item.link item.guid with
      | some opportunityId, some link =>
          if !st.postedOpportunities.contains opportunityId then
            scrapeLoop E source category st rest (opportunities ++ [
              { title := cleanText item.title
                link := link
                description := cleanText (jsOr (jsOr item.contentSnippet item.content) (some []))
                date := formatDate E item.pubDate
                source := source.name
                category := category
                id := opportunityId }])
          else scrapeLoop E source category st rest opportunities
      | _, _ => none

/-- The `try` block of `scrapeRSSFeed`. The argument `feed` is what
`Promise.race([rssParser.parseURL(source.url), timeout])` settles to: `some items`
for a parsed feed, `none` for a rejection (network error, parse error, timeout). -/
def scrapeTry (E : DateEngine) (feed : Option (List FeedItem)) (source : Source)
    (category : Category) (st : State) : Option (List Opportunity) :=
  match feed with
  | none => none
  | some items => scrapeLoop E source category st (items.take 3) []

/-- Source: `scrapeRSSFeed(source, category)`, with the state it runs in and the
state it leaves. -/
def scrapeRSSFeed (E : DateEngine) (feed : Option (List FeedItem)) (source : Source)
    (category : Category) (st : State) : List Opportunity × State :=
  match scrapeTry E feed source category st with
  | some opportunities => (opportunities, st)
  | none => ([], st)

/-! ## Formatter -/

/-- The constant `HEADER`. -/
def HEADER : JStr := js "🌍 *Opportunities4Africa* 🌍\n━━━━━━━━━━━━━━━━━━━━\n\n"

/-- The constant `FOOTER`. -/
def FOOTER : JStr := js "\n\n━━━━━━━━━━━━━━━━━━━━\n⚡ *Powered by Almuk* ⚡"

/-- Source: `addBranding(content)`. -/
def addBranding (content : JStr) : JStr := HEADER ++ content ++ FOOTER

/-- The emoji looked up by `formatOpportunity`. -/
def Category.emoji : Category → JStr
  | .scholarships => js "🎓"
  | .volunteer => js "🤝"
  | .ngo => js "🏢"
  | .tech => js "💻"

/-- The method `toUpperCase` on the ASCII letters, which is all the category
keys contain. -/
def toUpperCase (s : JStr) : JStr := s.map fun c => if 97 ≤ c ∧ c ≤ 122 then c - 32 else c

/-- Source: `formatOpportunity(opp)`. -/
def formatOpportunity (opp : Opportunity) : JStr :=
  trim (js "\n" ++ opp.category.emoji ++ js " *" ++ toUpperCase opp.category.key
    ++ js " OPPORTUNITY*\n\n*" ++ opp.title ++ js "*\n\n"
    ++ summarizeText (some opp.description) 200
    ++ js "\n\n📅 " ++ opp.date ++ js "\n🔗 [Apply Here](" ++ opp.link
    ++ js ")\n\n📌 Source: " ++ opp.source ++ js "\n  ")

/-! ## Delivery -/

/-- The loop of `postToChannels` over `managedChannels`, from position `i` on.
The source first filters the active channels and then visits them; the
channel objects are shared with `managedChannels`, so `channel.totalPosts++`
updates the element of `managedChannels`. `ok j` tells whether the send to the
channel at position `j` of `managedChannels` succeeds; a failed send raises
inside the `try` and is caught there. -/
def postLoop (ok : Nat → Bool) (message : JStr) : Nat → List Channel → List Channel × List Event
  | _, [] => ([], [])
  | i, channel :: rest =>
      let r := postLoop ok message (i + 1) rest
      if channel.active then
        if ok i then
          ({ channel with totalPosts := channel.totalPosts + 1 } :: r.1,
            Event.send channel.id message true :: r.2)
        else (channel :: r.1, Event.send channel.id message false :: r.2)
      else (channel :: r.1, r.2)

/-- Source: `postToChannels(opp)`. -/
def postToChannels (ok : Nat → Bool) (opp : Opportunity) (st : State) : State × List Event :=
  let message := addBranding (formatOpportunity opp)
  let r := postLoop ok message 0 st.managedChannels
  ({ st with managedChannels := r.1 }, r.2)

/-! ## Discovery pipeline -/

/-- What one scan meets outside the program. -/
structure ScanInput where
  /-- What fetching and parsing the feed of a source settles to in this scan. -/
  feed : Source → Option (List FeedItem)
  /-- Outcome of the send to the channel at position `i`, in the `k`-th call of
  `postToChannels` of this scan. -/
  sendOk : Nat → Nat → Bool
  /-- Value of `new Date().toLocaleTimeString()` at the end of the scan. -/
  finishedAt : JStr

/-- The loop `for (const opp of opportunities)` of `discoverAndPostOpportunities`;
`k` counts the calls of `postToChannels` made so far in the scan. -/
def postEach (inp : ScanInput) (category : Category) :
    List Opportunity → Nat → State → State × List Event
  | [], _, st => (st, [])
  | opp :: rest, k, st =>
      let p := postToChannels (inp.sendOk k) opp st
      let st1 : State :=
        { p.1 with
          postedOpportunities := setAdd p.1.postedOpportunities opp.id
          statsCounter := { (p.1.statsCounter.bump category) with
            total := (p.1.statsCounter.bump category).total + 1 } }
      let r := postEach inp category rest (k + 1) st1
      (r.1, Event.deliver opp st.postedOpportunities :: p.2 ++ r.2)

/-- The loops of `discoverAndPostOpportunities` over the categories and their
sources. -/
def scanSources (E : DateEngine) (inp : ScanInput) :
    List (Category × Source) → Nat → State → State × List Event
  | [], _, st => (st, [])
  | (category, source) :: rest, k, st =>
      let f := scrapeRSSFeed E (inp.feed source) source category st
      let p := postEach inp category f.1 k f.2
      let r := scanSources E inp rest (k + f.1.length) p.1
      (r.1, Event.fetch source.name f.1 :: p.2 ++ r.2)

/-- Source: `discoverAndPostOpportunities()`. The table it iterates is an
argument; the one of the source is `sources`. -/
def discoverAndPostOpportunities (E : DateEngine) (registry : List (Category × Source))
    (inp : ScanInput) (st : State) : State × List Event :=
  let r := scanSources E inp registry 0 st
  ({ r.1 with
      statsCounter := { r.1.statsCounter with
        lastScan := some inp.finishedAt
        scansToday := r.1.statsCounter.scansToday + 1 } },
    Event.scanStart :: r.2)

/-- A process run made of scans that do not overlap: each scan starts in the
state the previous one left. -/
def runScans (E : DateEngine) (registry : List (Category × Source)) :
    List ScanInput → State → State × List Event
  | [], st => (st, [])
  | inp :: rest, st =>
      let r := discoverAndPostOpportunities E registry inp st
      let r2 := runScans E registry rest r.1
      (r2.1, r.2 ++ r2.2)

/-! ## Control surface -/

/-- The configuration read from the environment at startup. -/
structure Config where
  ADMIN_USER_ID : Option JStr
  CHANNEL_ID : JStr
  enableBackgroundCron : Bool

/-- The sender of a command, `ctx.from.id`. The program uses it only through
`userId.toString()`, so it is given by the string that call returns, in
whatever notation the engine writes the number (decimal digits, or exponent
notation such as `1e+21` for a large one). -/
structure UserId where
  toString : JStr
  deriving DecidableEq, Repr

/-- Source: `isAdmin(userId)`, that is `userId.toString() === ADMIN_USER_ID`. -/
def isAdmin (cfg : Config) (userId : UserId) : Bool :=
  decide (some userId.toString = cfg.ADMIN_USER_ID)

/-- What a command handler is called with: the sender `ctx.from.id`, the clock,
whether the `n`-th awaited `ctx.reply` of the handler resolves, and what a scan
started by the handler meets. -/
structure Ctx where
  userId : UserId
  now : Nat
  replyOk : Nat → Bool
  scan : ScanInput

/-- The commands of the bot. -/
inductive Command where
  | start
  | dashboard
  | scanNow
  | pauseBot
  | resumeBot
  | sourcesList
  | settings
  | closeMenu
  deriving DecidableEq, Repr

/-- The reply of `start` to a user who is not the admin. -/
def GENERIC_REPLY : JStr := js "This bot posts to channels automatically."

/-- The refusal of `Scan Now` while the bot is paused. -/
def PAUSED_REFUSAL : JStr := js "⚠️ Bot is paused. Resume it first."

/-- First reply of `Scan Now`. -/
def SCAN_STARTING : JStr := js "🔍 Starting scan... Please wait."

/-- Reply of the `catch` of `Scan Now`. -/
def SCAN_ERRORS : JStr := js "⚠️ Scan completed with some errors. Check console."

/-- Source: `bot.command('start', ...)`. -/
def onStart (cfg : Config) (ctx : Ctx) (st : State) : State × List Event :=
  if !isAdmin cfg ctx.userId then (st, [Event.reply (.plain GENERIC_REPLY)])
  else (st, [Event.reply (.welcome st.botState.isPaused st.statsCounter.total)])

/-- Source: `bot.hears('📊 Dashboard', ...)`. -/
def onDashboard (cfg : Config) (ctx : Ctx) (st : State) : State × List Event :=
  if !isAdmin cfg ctx.userId then (st, [])
  else (st, [Event.reply (.dashboard st.botState.isPaused st.statsCounter)])

/-- Source: `bot.hears('🔍 Scan Now', ...)`. A reply that fails inside the `try`
leads to the `catch`, which replies once more. -/
def onScanNow (E : DateEngine) (cfg : Config) (registry : List (Category × Source))
    (ctx : Ctx) (st : State) : State × List Event :=
  if !isAdmin cfg ctx.userId then (st, [])
  else if st.botState.isPaused then (st, [Event.reply (.plain PAUSED_REFUSAL)])
  else if !ctx.replyOk 0 then
    (st, [Event.reply (.plain SCAN_STARTING), Event.reply (.plain SCAN_ERRORS)])
  else
    let r := discoverAndPostOpportunities E registry ctx.scan st
    (r.1, Event.reply (.plain SCAN_STARTING) :: r.2
      ++ Event.reply (.scanComplete r.1.statsCounter.total)
      :: (if ctx.replyOk 1 then [] else [Event.reply (.plain SCAN_ERRORS)]))

/-- Source: `bot.hears('⏸️ Pause Bot', ...)`. -/
def onPauseBot (cfg : Config) (ctx : Ctx) (st : State) : State × List Event :=
  if !isAdmin cfg ctx.userId then (st, [])
  else
    ({ st with botState := { st.botState with isPaused := true, pausedAt := some ctx.now } },
      [Event.reply (.plain (js "⏸️ Bot paused. Press [▶️ Resume Bot] to continue."))])

/-- Source: `bot.hears('▶️ Resume Bot', ...)`. -/
def onResumeBot (cfg : Config) (ctx : Ctx) (st : State) : State × List Event :=
  if !isAdmin cfg ctx.userId then (st, [])
  else
    ({ st with botState := { st.botState with isPaused := false } },
      [Event.reply (.plain (js "▶️ Bot resumed!"))])

/-- Source: `bot.hears('📚 Sources', ...)`. -/
def onSources (cfg : Config) (registry : List (Category × Source)) (ctx : Ctx) (st : State) :
    State × List Event :=
  if !isAdmin cfg ctx.userId then (st, [])
  else (st, [Event.reply (.sourcesList registry)])

/-- Source: `bot.hears('⚙️ Settings', ...)`. -/
def onSettings (cfg : Config) (ctx : Ctx) (st : State) : State × List Event :=
  if !isAdmin cfg ctx.userId then (st, [])
  else (st, [Event.reply (.settings cfg.CHANNEL_ID cfg.enableBackgroundCron)])

/-- Source: `bot.hears('❌ Close Menu', ...)`. -/
def onCloseMenu (cfg : Config) (ctx : Ctx) (st : State) : State × List Event :=
  if !isAdmin cfg ctx.userId then (st, [])
  else (st, [Event.reply (.plain (js "Menu closed."))])

/-- The handler registered for each command. -/
def handle (E : DateEngine) (cfg : Config) (registry : List (Category × Source)) :
    Command → Ctx → State → State × List Event
  | .start => onStart cfg
  | .dashboard => onDashboard cfg
  | .scanNow => onScanNow E cfg registry
  | .pauseBot => onPauseBot cfg
  | .resumeBot => onResumeBot cfg
  | .sourcesList => onSources cfg registry
  | .settings => onSettings cfg
  | .closeMenu => onCloseMenu cfg

/-- Source: the job given to `cron.schedule`, registered when
`enableBackgroundCron` holds. -/
def scheduledScan (E : DateEngine) (registry : List (Category × Source)) (inp : ScanInput)
    (st : State) : State × List Event :=
  if !st.botState.isPaused then discoverAndPostOpportunities E registry inp st else (st, [])

/-- What makes the program act: a command received from a user, or the
scheduled job firing. -/
inductive Trigger where
  | command (cmd : Command) (ctx : Ctx)
  | tick (inp : ScanInput)

/-- The program's reaction to one trigger. -/
def step (E : DateEngine) (cfg : Config) (registry : List (Category × Source)) :
    Trigger → State → State × List Event
  | .command cmd ctx => handle E cfg registry cmd ctx
  | .tick inp => scheduledScan E registry inp

/-- The program's reaction to triggers handled one after the other. -/
def runTriggers (E : DateEngine) (cfg : Config) (registry : List (Category × Source)) :
    List Trigger → State → State × List Event
  | [], st => (st, [])
  | t :: rest, st =>
      let r := step E cfg registry t st
      let r2 := runTriggers E cfg registry rest r.1
      (r2.1, r.2 ++ r2.2)

/-! ## Vocabulary of the statements -/

/-- The opportunities returned by the calls of `scrapeRSSFeed` recorded in a
log, in order. -/
def fetchedOf : List Event → List Opportunity
  | [] => []
  | .fetch _ found :: rest => found ++ fetchedOf rest
  | _ :: rest => fetchedOf rest

/-- Whether a trigger is the command `Resume Bot` sent by the admin. -/
def isAdminResume (cfg : Config) : Trigger → Bool
  | .command .resumeBot ctx => isAdmin cfg ctx.userId
  | _ => false

/-- A destination after a call of `postToChannels`: counted once more when it
is active and its send succeeded, and otherwise as it was. -/
def afterSend (ok : Nat → Bool) (p : Nat × Channel) : Channel :=
  if p.2.active && ok p.1 then { p.2 with totalPosts := p.2.totalPosts + 1 } else p.2

/-- The record the fetcher makes of a feed item, in the words of the
specification: identifier derived from the link or else the guid, title and
description cleaned, source name and category copied. -/
def opportunityOf (E : DateEngine) (source : Source) (category : Category) (item : FeedItem) :
    Opportunity :=
  { title := cleanText item.title
    link := (jsOr item.link item.guid).getD []
    description := cleanText (jsOr (jsOr item.contentSnippet item.content) (some []))
    date := formatDate E item.pubDate
    source := source.name
    category := category
    id := (generateOpportunityId (jsOr item.link item.guid)).getD [] }

/-- The fetcher in the words of the specification: the first three items in
feed order, each mapped to its record, those whose identifier is in the store
left out. -/
def freshOfFirstThree (E : DateEngine) (source : Source) (category : Category)
    (store : List JStr) (items : List FeedItem) : List Opportunity :=
  ((items.take 3).map (opportunityOf E source category)).filter
    (fun o => !store.contains o.id)

/-- A string holds no markup tag: no `<` in it is followed, anywhere later, by
a `>`. -/
def NoTag (s : JStr) : Prop := ∀ pre post, s = pre ++ LT_SIGN :: post → GT_SIGN ∉ post

/-- Every whitespace run of a string is one space character: each whitespace
code unit is a space (32) and no two whitespace code units are adjacent. -/
def SingleSpaces (s : JStr) : Prop :=
  (∀ c ∈ s, isSpace c = true → c = 32)
    ∧ s.Chain' (fun a b => ¬ (isSpace a = true ∧ isSpace b = true))

/-- A string has no leading and no trailing whitespace. -/
def Trimmed (s : JStr) : Prop :=
  (∀ c, s.head? = some c → isSpace c = false) ∧ (∀ c, s.getLast? = some c → isSpace c = false)

/-- The dedup invariant of a log that starts from the store `s0`: every
delivery begins with its identifier outside the store of that moment, no
identifier is delivered twice, and none delivered was in `s0`. -/
def Dedup (s0 : List JStr) (log : List Event) : Prop :=
  (∀ d ∈ deliveries log, d.1.id ∉ d.2)
    ∧ ((deliveries log).map (fun d => d.1.id)).Nodup
    ∧ ∀ d ∈ deliveries log, d.1.id ∉ s0

/-- The first three items of every feed of a scan have pairwise different
identifiers. -/
def DistinctBatches (E : DateEngine) (registry : List (Category × Source)) (inp : ScanInput) :
    Prop :=
  ∀ cs ∈ registry, ∀ items, inp.feed cs.2 = some items →
    ((items.take 3).map (fun item => (opportunityOf E cs.2 cs.1 item).id)).Nodup

/-- The hash in the words of the specification: start from 0 and, for each
code unit `c` in order, replace `h` by `31 * h + c` wrapped to a signed 32-bit
integer. -/
def rollingHash (s : JStr) : Int := s.foldl (fun (h : Int) (c : Nat) => toInt32 (31 * h + (c : Int))) 0

/-- A code unit is one of the base-36 digits `0-9` and `a-z`. -/
def IsDigit36 (u : Nat) : Prop := (48 ≤ u ∧ u ≤ 57) ∨ (97 ≤ u ∧ u ≤ 122)

/-- The value of a base-36 digit: `0-9` are 0 to 9 and `a-z` are 10 to 35. -/
def digitValue36 (u : Nat) : Nat := if u ≤ 57 then u - 48 else u - 87

/-- The integer a string of base-36 digits denotes, most significant digit
first. -/
def valueBase36 (digits : JStr) : Nat :=
  digits.foldl (fun (a u : Nat) => a * 36 + digitValue36 u) 0

/-- What the fetcher returns for a feed, in the words of the specification:
nothing when the fetch failed or one of the first three items has neither link
nor guid, and otherwise those of the first three items that are not in the
store. -/
def fetchResult (E : DateEngine) (feed : Option (List FeedItem)) (source : Source)
    (category : Category) (store : List JStr) : List Opportunity :=
  match feed with
  | none => []
  | some items =>
      if (items.take 3).all (fun item => (jsOr item.link item.guid).isSome) then
        freshOfFirstThree E source category store items
      else []

/-- The store after the identifiers of `opps` were added to it in order. -/
def storeAfter (store : List JStr) (opps : List Opportunity) : List JStr :=
  opps.foldl (fun s o => setAdd s o.id) store

/-- The opportunities the fetcher returns over one scan of a table, computed
from the feeds and the store at the start of the scan: the fetch of a source
reads the store with the identifiers of everything returned for the earlier
sources added. -/
def returnedBy (E : DateEngine) (inp : ScanInput) :
    List (Category × Source) → List JStr → List Opportunity
  | [], _ => []
  | (category, source) :: rest, store =>
      fetchResult E (inp.feed source) source category store
        ++ returnedBy E inp rest
            (storeAfter store (fetchResult E (inp.feed source) source category store))

/-! ## Sample inputs -/

/-- A date engine that parses nothing. -/
def sampleEngine : DateEngine := ⟨fun _ => none, fun _ => []⟩

/-- A feed item with a title and a link only. -/
def sampleItem (title link : String) : FeedItem :=
  ⟨some (js title), some (js link), none, none, none, none⟩

/-- The state at startup, but for the store, with one channel. -/
def sampleState (store : List JStr) : State :=
  ⟨store, ⟨0, 0, 0, 0, 0, none, 0⟩, ⟨false, none, none⟩,
    [⟨js "@main", js "Main Channel", true, 0, 0⟩]⟩

/-- A scan in which the feed of the source named `name` holds `items`, every
other fetch fails and every send fails. -/
def sampleScanAt (name : String) (items : List FeedItem) : ScanInput :=
  ⟨fun s => if s.name = js name then some items else none, fun _ _ => false, js "10:00:00 AM"⟩

/-- A scan in which the feed of the source named `RemoteOK` holds `items`, every
other fetch fails and every send succeeds. -/
def sampleScan (items : List FeedItem) : ScanInput :=
  ⟨fun s => if s.name = js "RemoteOK" then some items else none, fun _ _ => true,
    js "10:00:00 AM"⟩

end O4A

/-! # Theorems -/

namespace O4A

/-! ## Delivery: one send per active destination, one count per success -/

theorem postLoop_eq (ok : Nat → Bool) (m : JStr) (chs : List Channel) (i : Nat) :
    postLoop ok m i chs =
      ((chs.enumFrom i).map (afterSend ok),
        ((chs.enumFrom i).filter (fun p => p.2.active)).map
          (fun p => Event.send p.2.id m (ok p.1))) := by
  induction chs generalizing i with
  | nil => rfl
  | cons c rest ih =>
      simp only [postLoop, ih, List.enumFrom_cons, List.map_cons, afterSend]
      cases hc : c.active <;> cases ho : ok i <;> simp [List.filter_cons, hc, ho]

/-- C3. A call of `postToChannels` returns for every list of destinations and
every outcome of the sends; it attempts exactly one send to each active
destination, in order, whatever the outcome of the earlier ones, and none to an
inactive one; afterwards an active destination whose send succeeded has
`totalPosts` one higher and every other destination is as it was; nothing else
in the state changes. -/
theorem postToChannels_spec (ok : Nat → Bool) (opp : Opportunity) (st : State) :
    (postToChannels ok opp st).1.managedChannels = st.managedChannels.enum.map (afterSend ok)
    ∧ (postToChannels ok opp st).2 =
        (st.managedChannels.enum.filter (fun p => p.2.active)).map
          (fun p => Event.send p.2.id (addBranding (formatOpportunity opp)) (ok p.1))
    ∧ (∀ p, afterSend ok p =
        if p.2.active = true ∧ ok p.1 = true
        then { p.2 with totalPosts := p.2.totalPosts + 1 } else p.2)
    ∧ (postToChannels ok opp st).1.postedOpportunities = st.postedOpportunities
    ∧ (postToChannels ok opp st).1.statsCounter = st.statsCounter
    ∧ (postToChannels ok opp st).1.botState = st.botState := by
  refine ⟨?_, ?_, ?_, rfl, rfl, rfl⟩
  · simp [postToChannels, postLoop_eq, List.enum]
  · simp [postToChannels, postLoop_eq, List.enum]
  · intro p
    simp only [afterSend, Bool.and_eq_true]

/-! ## Summaries -/

theorem NO_DESCRIPTION_length : NO_DESCRIPTION.length = 25 := by decide

theorem ELLIPSIS_length : ELLIPSIS.length = 3 := by decide

/-- C5, as the claim states it, fails: without text the summary is the
25-character placeholder, whatever `maxLength` is. -/
theorem summarizeText_bound_fails :
    ¬ ∀ (text : Option JStr) (n : Nat), (summarizeText text n).length ≤ n + 3 := by
  intro h
  have := h none 0
  revert this
  decide

/-- C5, amended. For a text that is present and not empty, the summary has at
most `maxLength + 3` code units; for an absent or empty text it is the fixed
placeholder of 25 code units, whatever `maxLength` is. -/
theorem summarizeText_length (text : Option JStr) (n : Nat) :
    (truthy text = true → (summarizeText text n).length ≤ n + 3)
    ∧ (truthy text = false →
        summarizeText text n = NO_DESCRIPTION ∧ (summarizeText text n).length = 25) := by
  match text with
  | none => simp [truthy, summarizeText, NO_DESCRIPTION_length]
  | some [] => simp [truthy, summarizeText, NO_DESCRIPTION_length]
  | some (c :: cs) =>
      simp only [truthy, summarizeText, forall_const, false_implies, and_true, Bool.true_eq_false]
      split
      · omega
      · simp only [List.length_append, List.length_take, ELLIPSIS_length]
        omega

theorem summarizeText_length_witness :
    (truthy (some (js "<p>Call for  applications</p>")) = true
      ∧ (summarizeText (some (js "<p>Call for  applications</p>")) 8).length ≤ 8 + 3)
    ∧ (truthy none = false
      ∧ summarizeText none 8 = NO_DESCRIPTION ∧ (summarizeText none 8).length = 25) :=
  ⟨⟨by decide, (summarizeText_length (some (js "<p>Call for  applications</p>")) 8).1 (by decide)⟩,
    ⟨by decide, (summarizeText_length none 8).2 (by decide)⟩⟩

/-! ## Date labels -/

/-- The part of C6 that holds: `formatDate` returns a string for every input,
and for an absent or empty input that string is the placeholder. -/
theorem formatDate_absent (E : DateEngine) :
    formatDate E none = RECENTLY_POSTED ∧ formatDate E (some []) = RECENTLY_POSTED :=
  ⟨rfl, rfl⟩

/-- The `catch` of `formatDate` is never entered. -/
theorem formatDateTry_isSome (E : DateEngine) (s : JStr) : (formatDateTry E s).isSome = true := by
  unfold formatDateTry
  split <;> rfl

/-- C6, at the failing input. For a string that does not parse as a date, here
"not a date", `formatDate` returns "Invalid Date", which is not the placeholder
"Recently posted". -/
theorem formatDate_not_a_date (E : DateEngine) (h : E.parse (js "not a date") = none) :
    formatDate E (some (js "not a date")) = js "Invalid Date"
    ∧ formatDate E (some (js "not a date")) ≠ RECENTLY_POSTED := by
  have h1 : formatDate E (some (js "not a date")) = js "Invalid Date" := by
    have hj : js "not a date" = 110 :: js "ot a date" := by decide
    rw [hj] at h ⊢
    simp only [formatDate, formatDateTry, h]
    rfl
  refine ⟨h1, ?_⟩
  rw [h1]
  decide

theorem formatDate_not_a_date_witness :
    formatDate ⟨fun _ => none, fun _ => js "Jan 1"⟩ (some (js "not a date")) = js "Invalid Date"
    ∧ formatDate ⟨fun _ => none, fun _ => js "Jan 1"⟩ (some (js "not a date")) ≠ RECENTLY_POSTED :=
  formatDate_not_a_date ⟨fun _ => none, fun _ => js "Jan 1"⟩ rfl

/-! ## Feed fetcher -/

theorem scrapeLoop_eq (E : DateEngine) (source : Source) (category : Category) (st : State)
    (items : List FeedItem) (acc : List Opportunity)
    (h : ∀ item ∈ items, (jsOr item.link item.guid).isSome = true) :
    scrapeLoop E source category st items acc =
      some (acc ++ (items.map (opportunityOf E source category)).filter
        (fun o => !st.postedOpportunities.contains o.id)) := by
  induction items generalizing acc with
  | nil => simp [scrapeLoop]
  | cons item rest ih =>
      have h1 := h item (List.mem_cons_self _ _)
      have h2 : ∀ x ∈ rest, (jsOr x.link x.guid).isSome = true :=
        fun x hx => h x (List.mem_cons_of_mem _ hx)
      obtain ⟨l, hl⟩ := Option.isSome_iff_exists.mp h1
      simp only [scrapeLoop, hl, generateOpportunityId, List.map_cons, List.filter_cons,
        opportunityOf, Option.getD_some]
      split
      · rw [ih _ h2]
        simp [opportunityOf, hl, generateOpportunityId]
      · rw [ih _ h2]

theorem scrapeLoop_none (E : DateEngine) (source : Source) (category : Category) (st : State)
    (items : List FeedItem) (acc : List Opportunity)
    (h : ∃ item ∈ items, jsOr item.link item.guid = none) :
    scrapeLoop E source category st items acc = none := by
  induction items generalizing acc with
  | nil => simp at h
  | cons item rest ih =>
      cases hj : jsOr item.link item.guid with
      | none => simp [scrapeLoop, hj, generateOpportunityId]
      | some l =>
          have h2 : ∃ x ∈ rest, jsOr x.link x.guid = none := by
            obtain ⟨x, hx, hn⟩ := h
            rcases List.mem_cons.mp hx with rfl | hx
            · rw [hj] at hn
              cases hn
            · exact ⟨x, hx, hn⟩
          simp only [scrapeLoop, hj, generateOpportunityId]
          split
          · exact ih _ h2
          · exact ih _ h2

/-- On a parsed feed whose first three items each yield a string for
`item.link || item.guid`, the fetcher computes what the specification says. -/
theorem scrapeRSSFeed_eq (E : DateEngine) (source : Source) (category : Category)
    (st : State) (items : List FeedItem)
    (h : ∀ item ∈ items.take 3, (jsOr item.link item.guid).isSome = true) :
    scrapeRSSFeed E (some items) source category st =
      (freshOfFirstThree E source category st.postedOpportunities items, st) := by
  simp [scrapeRSSFeed, scrapeTry, scrapeLoop_eq E source category st _ [] h,
    freshOfFirstThree]

theorem freshOfFirstThree_not_stored (E : DateEngine) (source : Source) (category : Category)
    (store : List JStr) (items : List FeedItem) :
    ∀ o ∈ freshOfFirstThree E source category store items, o.id ∉ store := by
  intro o ho
  simpa [freshOfFirstThree] using (List.mem_filter.mp ho).2

/-- The fetcher returns nothing when the fetch fails and when one of the first
three items has neither link nor guid. -/
theorem scrapeRSSFeed_failed (E : DateEngine) (source : Source) (category : Category)
    (st : State) (feed : Option (List FeedItem))
    (h : feed = none ∨ ∃ items, feed = some items
      ∧ ∃ item ∈ items.take 3, jsOr item.link item.guid = none) :
    scrapeRSSFeed E feed source category st = ([], st) := by
  rcases h with rfl | ⟨items, rfl, hx⟩
  · rfl
  · simp [scrapeRSSFeed, scrapeTry, scrapeLoop_none E source category st _ [] hx]

/-- C2. For a parsed feed whose first three items each have a link or a guid
(the expression `item.link || item.guid` yields a string), `scrapeRSSFeed`
returns the first three items in feed order, each mapped to its record, without
those whose identifier is in the store, and leaves the state as it was; the
result has at most three elements and none whose identifier is in the store. -/
theorem scrapeRSSFeed_spec (E : DateEngine) (source : Source) (category : Category)
    (st : State) (items : List FeedItem)
    (h : ∀ item ∈ items.take 3, (jsOr item.link item.guid).isSome = true) :
    scrapeRSSFeed E (some items) source category st =
      (freshOfFirstThree E source category st.postedOpportunities items, st)
    ∧ (scrapeRSSFeed E (some items) source category st).1.length ≤ 3
    ∧ (∀ o ∈ (scrapeRSSFeed E (some items) source category st).1,
        o.id ∉ st.postedOpportunities)
    ∧ (∀ o ∈ (scrapeRSSFeed E (some items) source category st).1,
        ∃ item ∈ items.take 3, o = opportunityOf E source category item
          ∧ some o.id = generateOpportunityId (jsOr item.link item.guid)) := by
  have e := scrapeRSSFeed_eq E source category st items h
  refine ⟨e, ?_, ?_, ?_⟩
  · rw [e]
    calc (freshOfFirstThree E source category st.postedOpportunities items).length
        ≤ ((items.take 3).map (opportunityOf E source category)).length :=
          List.length_filter_le _ _
      _ ≤ 3 := by simp
  · intro o ho
    rw [e] at ho
    simpa [freshOfFirstThree] using (List.mem_filter.mp ho).2
  · intro o ho
    rw [e] at ho
    obtain ⟨item, hi, rfl⟩ := List.mem_map.mp (List.mem_filter.mp ho).1
    refine ⟨item, hi, rfl, ?_⟩
    obtain ⟨l, hl⟩ := Option.isSome_iff_exists.mp (h item hi)
    simp [opportunityOf, hl, generateOpportunityId]

theorem scrapeRSSFeed_spec_witness :
    (∀ item ∈ ([⟨some (js "A"), some (js "a"), none, none, none, none⟩,
        ⟨some (js "B"), none, some (js "b"), none, none, none⟩] : List FeedItem).take 3,
      (jsOr item.link item.guid).isSome = true)
    ∧ (scrapeRSSFeed ⟨fun _ => none, fun _ => []⟩
        (some [⟨some (js "A"), some (js "a"), none, none, none, none⟩,
          ⟨some (js "B"), none, some (js "b"), none, none, none⟩])
        ⟨js "S", js "u"⟩ .tech ⟨[js "2p"], ⟨0, 0, 0, 0, 0, none, 0⟩, ⟨false, none, none⟩, []⟩).1.length
        ≤ 3 :=
  ⟨by decide,
    (scrapeRSSFeed_spec ⟨fun _ => none, fun _ => []⟩ ⟨js "S", js "u"⟩ .tech
      ⟨[js "2p"], ⟨0, 0, 0, 0, 0, none, 0⟩, ⟨false, none, none⟩, []⟩
      [⟨some (js "A"), some (js "a"), none, none, none, none⟩,
        ⟨some (js "B"), none, some (js "b"), none, none, none⟩] (by decide)).2.1⟩

/-- C7. `scrapeRSSFeed` returns a list for every outcome of the fetch. When the
fetch or the parse fails or times out, and when one of the first three items
has neither link nor guid (so that `generateOpportunityId` raises on an absent
value), the list is empty and the state is as it was; the scan then goes on
with the remaining sources from that same state. -/
theorem scrapeRSSFeed_failure (E : DateEngine) (source : Source) (category : Category)
    (st : State) (feed : Option (List FeedItem))
    (h : feed = none ∨ ∃ items, feed = some items
      ∧ ∃ item ∈ items.take 3, jsOr item.link item.guid = none) :
    scrapeRSSFeed E feed source category st = ([], st)
    ∧ (∀ item : FeedItem, generateOpportunityId (jsOr item.link item.guid) = none
        ↔ jsOr item.link item.guid = none)
    ∧ ∀ (inp : ScanInput) (rest : List (Category × Source)) (k : Nat),
        inp.feed source = feed →
        scanSources E inp ((category, source) :: rest) k st =
          ((scanSources E inp rest k st).1,
            Event.fetch source.name [] :: (scanSources E inp rest k st).2) := by
  have e := scrapeRSSFeed_failed E source category st feed h
  refine ⟨e, ?_, ?_⟩
  · intro item
    cases jsOr item.link item.guid <;> simp [generateOpportunityId]
  · intro inp rest k hf
    simp [scanSources, hf, e, postEach]

theorem scrapeRSSFeed_failure_witness :
    (∃ items, some [(⟨some (js "A"), some (js "a"), none, none, none, none⟩ : FeedItem),
        ⟨some (js "B"), none, none, none, none, none⟩] = some items
      ∧ ∃ item ∈ items.take 3, jsOr item.link item.guid = none)
    ∧ scrapeRSSFeed ⟨fun _ => none, fun _ => []⟩
        (some [⟨some (js "A"), some (js "a"), none, none, none, none⟩,
          ⟨some (js "B"), none, none, none, none, none⟩])
        ⟨js "S", js "u"⟩ .tech ⟨[], ⟨0, 0, 0, 0, 0, none, 0⟩, ⟨false, none, none⟩, []⟩
      = ([], ⟨[], ⟨0, 0, 0, 0, 0, none, 0⟩, ⟨false, none, none⟩, []⟩) :=
  ⟨⟨_, rfl, ⟨some (js "B"), none, none, none, none, none⟩, by decide, by decide⟩,
    (scrapeRSSFeed_failure ⟨fun _ => none, fun _ => []⟩ ⟨js "S", js "u"⟩ .tech
      ⟨[], ⟨0, 0, 0, 0, 0, none, 0⟩, ⟨false, none, none⟩, []⟩ _
      (Or.inr ⟨_, rfl, ⟨some (js "B"), none, none, none, none, none⟩,
        by decide, by decide⟩)).1⟩

/-- Every outcome of the fetch gives a list: `scrapeRSSFeed` is total and the
state it leaves is the state it ran in. -/
theorem scrapeRSSFeed_state (E : DateEngine) (source : Source) (category : Category)
    (st : State) (feed : Option (List FeedItem)) :
    (scrapeRSSFeed E feed source category st).2 = st := by
  unfold scrapeRSSFeed
  split <;> rfl

/-! ## Control surface -/

/-- The gate of every handler: `isAdmin` holds exactly when the string form of
the sender is `ADMIN_USER_ID`; with `ADMIN_USER_ID` unset it holds for nobody. -/
theorem isAdmin_iff (cfg : Config) (userId : UserId) :
    (isAdmin cfg userId = true ↔ some userId.toString = cfg.ADMIN_USER_ID)
    ∧ (cfg.ADMIN_USER_ID = none → isAdmin cfg userId = false) := by
  refine ⟨by simp [isAdmin], ?_⟩
  intro h
  simp [isAdmin, h]

/-- The gate reads the string form as the engine writes it: a sender whose
`toString()` is `1e+21` is the admin when `ADMIN_USER_ID` is `1e+21`, and the
`Pause Bot` of that sender pauses the bot. -/
theorem isAdmin_exponent_form :
    isAdmin ⟨some (js "1e+21"), js "c", false⟩ ⟨js "1e+21"⟩ = true
    ∧ (handle sampleEngine ⟨some (js "1e+21"), js "c", false⟩ sources .pauseBot
        ⟨⟨js "1e+21"⟩, 5, fun _ => true, sampleScan []⟩
        (sampleState [])).1.botState.isPaused = true := by
  decide

/-- C9. When the string form of the sender, `userId.toString()`, is not
`ADMIN_USER_ID`, every command handler leaves the whole state as it was, does not enter the pipeline
and sends nothing (no message to a channel), and replies either nothing or only
the fixed text "This bot posts to channels automatically.". -/
theorem handle_not_admin (E : DateEngine) (cfg : Config) (registry : List (Category × Source))
    (cmd : Command) (ctx : Ctx) (st : State)
    (h : some ctx.userId.toString ≠ cfg.ADMIN_USER_ID) :
    (handle E cfg registry cmd ctx st).1 = st
    ∧ ((handle E cfg registry cmd ctx st).2 = []
      ∨ (handle E cfg registry cmd ctx st).2 = [Event.reply (.plain GENERIC_REPLY)])
    ∧ Event.scanStart ∉ (handle E cfg registry cmd ctx st).2
    ∧ GENERIC_REPLY = js "This bot posts to channels automatically." := by
  have ha : isAdmin cfg ctx.userId = false := by simp [isAdmin, h]
  cases cmd <;>
    simp [handle, onStart, onDashboard, onScanNow, onPauseBot, onResumeBot, onSources,
      onSettings, onCloseMenu, ha, GENERIC_REPLY]

theorem handle_not_admin_witness :
    some (UserId.mk (js "7")).toString ≠ (some (js "42") : Option JStr)
    ∧ (handle ⟨fun _ => none, fun _ => []⟩ ⟨some (js "42"), js "c", false⟩ sources .pauseBot
        ⟨⟨js "7"⟩, 0, fun _ => true, ⟨fun _ => none, fun _ _ => true, []⟩⟩
        ⟨[], ⟨0, 0, 0, 0, 0, none, 0⟩, ⟨false, none, none⟩, []⟩).1
      = ⟨[], ⟨0, 0, 0, 0, 0, none, 0⟩, ⟨false, none, none⟩, []⟩ :=
  ⟨by decide,
    (handle_not_admin ⟨fun _ => none, fun _ => []⟩ ⟨some (js "42"), js "c", false⟩ sources
      .pauseBot ⟨⟨js "7"⟩, 0, fun _ => true, ⟨fun _ => none, fun _ _ => true, []⟩⟩
      ⟨[], ⟨0, 0, 0, 0, 0, none, 0⟩, ⟨false, none, none⟩, []⟩ (by decide)).1⟩

/-- While the bot is paused, a trigger other than the admin's `Resume Bot`
leaves it paused, does not enter the pipeline and changes neither the counters,
nor the store, nor the channels. -/
theorem step_paused (E : DateEngine) (cfg : Config) (registry : List (Category × Source))
    (t : Trigger) (st : State) (hp : st.botState.isPaused = true)
    (ht : isAdminResume cfg t = false) :
    (step E cfg registry t st).1.botState.isPaused = true
    ∧ (step E cfg registry t st).1.statsCounter = st.statsCounter
    ∧ (step E cfg registry t st).1.postedOpportunities = st.postedOpportunities
    ∧ (step E cfg registry t st).1.managedChannels = st.managedChannels
    ∧ Event.scanStart ∉ (step E cfg registry t st).2 := by
  cases t with
  | tick inp => simp [step, scheduledScan, hp]
  | command cmd ctx =>
      cases ha : isAdmin cfg ctx.userId <;> cases cmd <;>
        simp_all [step, handle, onStart, onDashboard, onScanNow, onPauseBot, onResumeBot,
          onSources, onSettings, onCloseMenu, isAdminResume]

theorem runTriggers_paused (E : DateEngine) (cfg : Config) (registry : List (Category × Source))
    (ts : List Trigger) (st : State) (hp : st.botState.isPaused = true)
    (ht : ∀ t ∈ ts, isAdminResume cfg t = false) :
    (runTriggers E cfg registry ts st).1.botState.isPaused = true
    ∧ (runTriggers E cfg registry ts st).1.statsCounter = st.statsCounter
    ∧ (runTriggers E cfg registry ts st).1.postedOpportunities = st.postedOpportunities
    ∧ (runTriggers E cfg registry ts st).1.managedChannels = st.managedChannels
    ∧ Event.scanStart ∉ (runTriggers E cfg registry ts st).2 := by
  induction ts generalizing st with
  | nil => simp [runTriggers, hp]
  | cons t rest ih =>
      obtain ⟨h1, h2, h3, h4, h5⟩ :=
        step_paused E cfg registry t st hp (ht t (List.mem_cons_self _ _))
      obtain ⟨g1, g2, g3, g4, g5⟩ :=
        ih (step E cfg registry t st).1 h1 (fun x hx => ht x (List.mem_cons_of_mem _ hx))
      simp only [runTriggers]
      refine ⟨g1, g2.trans h2, g3.trans h3, g4.trans h4, ?_⟩
      simp [h5, g5]

/-- C8. From every state, the admin's `Pause Bot` sets `botState.isPaused`; the
bot stays paused through whatever triggers follow as long as none is the
admin's `Resume Bot`; an admin's `Scan Now` arriving then is refused: the reply
is the refusal, the pipeline is not entered, and `statsCounter`,
`postedOpportunities` and every channel are as they were before the pause. -/
theorem pause_then_scan_refused (E : DateEngine) (cfg : Config)
    (registry : List (Category × Source)) (pause scan : Ctx) (between : List Trigger)
    (st : State) (hp : isAdmin cfg pause.userId = true) (hs : isAdmin cfg scan.userId = true)
    (hb : ∀ t ∈ between, isAdminResume cfg t = false) :
    (handle E cfg registry .pauseBot pause st).1.botState.isPaused = true
    ∧ (handle E cfg registry .scanNow scan
        (runTriggers E cfg registry between (handle E cfg registry .pauseBot pause st).1).1)
      = ((runTriggers E cfg registry between (handle E cfg registry .pauseBot pause st).1).1,
          [Event.reply (.plain PAUSED_REFUSAL)])
    ∧ Event.scanStart ∉
        (runTriggers E cfg registry between (handle E cfg registry .pauseBot pause st).1).2
    ∧ (runTriggers E cfg registry between
        (handle E cfg registry .pauseBot pause st).1).1.statsCounter = st.statsCounter
    ∧ (runTriggers E cfg registry between
        (handle E cfg registry .pauseBot pause st).1).1.postedOpportunities
      = st.postedOpportunities
    ∧ (runTriggers E cfg registry between
        (handle E cfg registry .pauseBot pause st).1).1.managedChannels
      = st.managedChannels := by
  have h0 : (handle E cfg registry .pauseBot pause st).1.botState.isPaused = true := by
    simp [handle, onPauseBot, hp]
  obtain ⟨g1, g2, g3, g4, g5⟩ := runTriggers_paused E cfg registry between _ h0 hb
  refine ⟨h0, ?_, g5, ?_, ?_, ?_⟩
  · generalize (runTriggers E cfg registry between
      (handle E cfg registry .pauseBot pause st).1).1 = s2 at g1
    simp [handle, onScanNow, hs, g1]
  · rw [g2]; simp [handle, onPauseBot, hp]
  · rw [g3]; simp [handle, onPauseBot, hp]
  · rw [g4]; simp [handle, onPauseBot, hp]

theorem pause_then_scan_refused_witness :
    isAdmin ⟨some (js "42"), js "c", true⟩ ⟨js "42"⟩ = true
    ∧ (∀ t ∈ [Trigger.tick ⟨fun _ => some [], fun _ _ => true, js "now"⟩],
        isAdminResume ⟨some (js "42"), js "c", true⟩ t = false)
    ∧ (handle ⟨fun _ => none, fun _ => []⟩ ⟨some (js "42"), js "c", true⟩ sources .pauseBot
        ⟨⟨js "42"⟩, 5, fun _ => true, ⟨fun _ => some [], fun _ _ => true, js "now"⟩⟩
        ⟨[], ⟨0, 0, 0, 0, 0, none, 0⟩, ⟨false, none, none⟩, []⟩).1.botState.isPaused = true :=
  ⟨by decide, by decide,
    (pause_then_scan_refused ⟨fun _ => none, fun _ => []⟩ ⟨some (js "42"), js "c", true⟩ sources
      ⟨⟨js "42"⟩, 5, fun _ => true, ⟨fun _ => some [], fun _ _ => true, js "now"⟩⟩
      ⟨⟨js "42"⟩, 6, fun _ => true, ⟨fun _ => some [], fun _ _ => true, js "now"⟩⟩
      [Trigger.tick ⟨fun _ => some [], fun _ _ => true, js "now"⟩]
      ⟨[], ⟨0, 0, 0, 0, 0, none, 0⟩, ⟨false, none, none⟩, []⟩
      (by decide) (by decide) (by decide)).1⟩

/-! ## Discovery pipeline: bookkeeping -/

theorem deliveries_append (a b : List Event) : deliveries (a ++ b) = deliveries a ++ deliveries b := by
  induction a with
  | nil => rfl
  | cons e rest ih => cases e <;> simp [deliveries, ih]

theorem fetchedOf_append (a b : List Event) : fetchedOf (a ++ b) = fetchedOf a ++ fetchedOf b := by
  induction a with
  | nil => rfl
  | cons e rest ih => cases e <;> simp [fetchedOf, ih]

theorem postToChannels_log (ok : Nat → Bool) (opp : Opportunity) (st : State) :
    deliveries (postToChannels ok opp st).2 = []
    ∧ fetchedOf (postToChannels ok opp st).2 = []
    ∧ Event.scanStart ∉ (postToChannels ok opp st).2 := by
  have e : (postToChannels ok opp st).2 =
      (st.managedChannels.enum.filter (fun p => p.2.active)).map
        (fun p => Event.send p.2.id (addBranding (formatOpportunity opp)) (ok p.1)) := by
    simp [postToChannels, postLoop_eq, List.enum]
  rw [e]
  generalize st.managedChannels.enum.filter (fun p => p.2.active) = l
  induction l with
  | nil => simp [deliveries, fetchedOf]
  | cons p rest ih =>
      obtain ⟨h1, h2, h3⟩ := ih
      simp [deliveries, fetchedOf, h1, h2]

theorem mem_setAdd (s : List JStr) (x y : JStr) : y ∈ setAdd s x ↔ y ∈ s ∨ y = x := by
  unfold setAdd
  split
  · rename_i h
    have hx : x ∈ s := by simpa using h
    constructor
    · exact Or.inl
    · rintro (h1 | rfl)
      · exact h1
      · exact hx
  · simp

theorem bump_get (s : Stats) (cat c : Category) :
    (s.bump cat).get c = s.get c + if c = cat then 1 else 0 := by
  cases cat <;> cases c <;> simp [Stats.bump, Stats.get]

theorem bump_rest (s : Stats) (cat : Category) :
    (s.bump cat).total = s.total ∧ (s.bump cat).lastScan = s.lastScan
    ∧ (s.bump cat).scansToday = s.scansToday := by
  cases cat <;> simp [Stats.bump]

/-- The loop over the opportunities of one source: each is passed to
`postToChannels` once, then its identifier is stored and it is counted once in
its category and once in the total, whatever the sends did. -/
theorem postEach_spec (inp : ScanInput) (cat : Category) (opps : List Opportunity) (k : Nat)
    (st : State) :
    (postEach inp cat opps k st).1.statsCounter.total = st.statsCounter.total + opps.length
    ∧ (∀ c, (postEach inp cat opps k st).1.statsCounter.get c =
        st.statsCounter.get c + if c = cat then opps.length else 0)
    ∧ (postEach inp cat opps k st).1.statsCounter.lastScan = st.statsCounter.lastScan
    ∧ (postEach inp cat opps k st).1.statsCounter.scansToday = st.statsCounter.scansToday
    ∧ (postEach inp cat opps k st).1.botState = st.botState
    ∧ (∀ x, x ∈ (postEach inp cat opps k st).1.postedOpportunities ↔
        x ∈ st.postedOpportunities ∨ x ∈ opps.map (fun o => o.id))
    ∧ (deliveries (postEach inp cat opps k st).2).map Prod.fst = opps
    ∧ fetchedOf (postEach inp cat opps k st).2 = []
    ∧ Event.scanStart ∉ (postEach inp cat opps k st).2 := by
  induction opps generalizing k st with
  | nil => simp [postEach, deliveries, fetchedOf]
  | cons opp rest ih =>
      obtain ⟨h1, h2, h3, h4, h5, h6, h7, h8, h9⟩ := ih (k + 1)
        { (postToChannels (inp.sendOk k) opp st).1 with
          postedOpportunities :=
            setAdd (postToChannels (inp.sendOk k) opp st).1.postedOpportunities opp.id
          statsCounter :=
            { ((postToChannels (inp.sendOk k) opp st).1.statsCounter.bump cat) with
              total := ((postToChannels (inp.sendOk k) opp st).1.statsCounter.bump cat).total
                + 1 } }
      obtain ⟨l1, l2, l3⟩ := postToChannels_log (inp.sendOk k) opp st
      obtain ⟨b1, b2, b3⟩ := bump_rest st.statsCounter cat
      have p1 : (postToChannels (inp.sendOk k) opp st).1.statsCounter = st.statsCounter := rfl
      have p2 : (postToChannels (inp.sendOk k) opp st).1.postedOpportunities
          = st.postedOpportunities := rfl
      have p3 : (postToChannels (inp.sendOk k) opp st).1.botState = st.botState := rfl
      simp only [postEach]
      refine ⟨?_, ?_, ?_, ?_, ?_, ?_, ?_, ?_, ?_⟩
      · rw [h1]
        simp only [p1, b1, List.length_cons]
        omega
      · intro c
        rw [h2 c]
        have hg : ∀ (s : Stats) (n : Nat), ({ s with total := n } : Stats).get c = s.get c := by
          intro s n
          cases c <;> rfl
        rw [hg, p1, bump_get]
        by_cases hc : c = cat <;> simp [hc]
        omega
      · rw [h3]
        simp only [p1, b2]
      · rw [h4]
        simp only [p1, b3]
      · rw [h5, p3]
      · intro x
        rw [h6 x]
        simp only [p2, mem_setAdd, List.map_cons, List.mem_cons]
        tauto
      · simp [deliveries, deliveries_append, l1, h7]
      · simp [fetchedOf, fetchedOf_append, l2, h8]
      · simp [l3, h9]

/-- Whatever the feed, the fetcher returns nothing or what the specification
describes. -/
theorem scrapeRSSFeed_cases (E : DateEngine) (source : Source) (category : Category)
    (st : State) (feed : Option (List FeedItem)) :
    (scrapeRSSFeed E feed source category st).1 = []
    ∨ ∃ items, feed = some items
      ∧ (∀ item ∈ items.take 3, (jsOr item.link item.guid).isSome = true)
      ∧ (scrapeRSSFeed E feed source category st).1 =
        freshOfFirstThree E source category st.postedOpportunities items := by
  cases feed with
  | none => exact Or.inl rfl
  | some items =>
      by_cases h : ∀ item ∈ items.take 3, (jsOr item.link item.guid).isSome = true
      · exact Or.inr ⟨items, rfl, h, by rw [scrapeRSSFeed_eq E source category st items h]⟩
      · left
        have hx : ∃ item ∈ items.take 3, jsOr item.link item.guid = none := by
          push_neg at h
          obtain ⟨item, hi, hn⟩ := h
          exact ⟨item, hi, by simpa using hn⟩
        rw [scrapeRSSFeed_failed E source category st (some items)
          (Or.inr ⟨items, rfl, hx⟩)]

theorem scrapeRSSFeed_category (E : DateEngine) (source : Source) (category : Category)
    (st : State) (feed : Option (List FeedItem)) :
    ∀ o ∈ (scrapeRSSFeed E feed source category st).1, o.category = category := by
  intro o ho
  rcases scrapeRSSFeed_cases E source category st feed with h | ⟨items, _, _, h⟩
  · rw [h] at ho
    cases ho
  · rw [h] at ho
    obtain ⟨item, _, rfl⟩ := List.mem_map.mp (List.mem_filter.mp ho).1
    rfl

theorem countP_category (opps : List Opportunity) (cat c : Category)
    (h : ∀ o ∈ opps, o.category = cat) :
    opps.countP (fun o => decide (o.category = c)) = if c = cat then opps.length else 0 := by
  induction opps with
  | nil => simp
  | cons o rest ih =>
      have ho := h o (List.mem_cons_self _ _)
      have ih2 := ih (fun x hx => h x (List.mem_cons_of_mem _ hx))
      by_cases hc : c = cat
      · subst hc
        simp only [if_true] at ih2 ⊢
        simp [List.countP_cons, ho, ih2]
      · have hne : ¬ o.category = c := by
          rw [ho]
          exact fun e => hc e.symm
        simp only [hc, if_false] at ih2 ⊢
        simp [List.countP_cons, hne, ih2]

/-- The loops over the sources: the counters grow by the number of
opportunities the fetcher returned, in total and per category, every returned
opportunity is passed to `postToChannels` once and its identifier stored, and
the store only grows. -/
theorem scanSources_spec (E : DateEngine) (inp : ScanInput) (reg : List (Category × Source))
    (k : Nat) (st : State) :
    (scanSources E inp reg k st).1.statsCounter.total =
        st.statsCounter.total + (fetchedOf (scanSources E inp reg k st).2).length
    ∧ (∀ c, (scanSources E inp reg k st).1.statsCounter.get c =
        st.statsCounter.get c
          + (fetchedOf (scanSources E inp reg k st).2).countP (fun o => decide (o.category = c)))
    ∧ (scanSources E inp reg k st).1.statsCounter.lastScan = st.statsCounter.lastScan
    ∧ (scanSources E inp reg k st).1.statsCounter.scansToday = st.statsCounter.scansToday
    ∧ (scanSources E inp reg k st).1.botState = st.botState
    ∧ (∀ x, x ∈ (scanSources E inp reg k st).1.postedOpportunities ↔
        x ∈ st.postedOpportunities
          ∨ x ∈ (fetchedOf (scanSources E inp reg k st).2).map (fun o => o.id))
    ∧ (deliveries (scanSources E inp reg k st).2).map Prod.fst
        = fetchedOf (scanSources E inp reg k st).2
    ∧ Event.scanStart ∉ (scanSources E inp reg k st).2 := by
  induction reg generalizing k st with
  | nil => simp [scanSources, deliveries, fetchedOf]
  | cons cs rest ih =>
      obtain ⟨cat, src⟩ := cs
      have hst := scrapeRSSFeed_state E src cat st (inp.feed src)
      have hcat := scrapeRSSFeed_category E src cat st (inp.feed src)
      simp only [scanSources]
      generalize scrapeRSSFeed E (inp.feed src) src cat st = f at hst hcat ⊢
      obtain ⟨opps, st0⟩ := f
      simp only at hst hcat ⊢
      subst hst
      obtain ⟨e1, e2, e3, e4, e5, e6, e7, e8, e9⟩ := postEach_spec inp cat opps k st0
      obtain ⟨h1, h2, h3, h4, h5, h6, h7, h8⟩ :=
        ih (k + opps.length) (postEach inp cat opps k st0).1
      have hf : fetchedOf (Event.fetch src.name opps :: (postEach inp cat opps k st0).2
          ++ (scanSources E inp rest (k + opps.length) (postEach inp cat opps k st0).1).2)
          = opps ++ fetchedOf
            (scanSources E inp rest (k + opps.length) (postEach inp cat opps k st0).1).2 := by
        simp [fetchedOf, fetchedOf_append, e8]
      rw [hf]
      refine ⟨?_, ?_, ?_, ?_, ?_, ?_, ?_, ?_⟩
      · rw [h1, e1, List.length_append]
        omega
      · intro c
        rw [h2 c, e2 c, List.countP_append, countP_category opps cat c hcat]
        omega
      · rw [h3, e3]
      · rw [h4, e4]
      · rw [h5, e5]
      · intro x
        rw [h6 x, e6 x, List.map_append, List.mem_append]
        tauto
      · simp [deliveries, deliveries_append, e7, h7]
      · simp [e9, h8]

theorem scrapeRSSFeed_fst (E : DateEngine) (source : Source) (category : Category)
    (st : State) (feed : Option (List FeedItem)) :
    (scrapeRSSFeed E feed source category st).1 =
      fetchResult E feed source category st.postedOpportunities := by
  cases feed with
  | none => rfl
  | some items =>
      by_cases h : ∀ item ∈ items.take 3, (jsOr item.link item.guid).isSome = true
      · have ha : (items.take 3).all (fun item => (jsOr item.link item.guid).isSome) = true :=
          List.all_eq_true.mpr h
        rw [scrapeRSSFeed_eq E source category st items h]
        simp only [fetchResult, ha, if_true]
      · have ha : ¬ (items.take 3).all (fun item => (jsOr item.link item.guid).isSome) = true :=
          fun hall => h (List.all_eq_true.mp hall)
        have hx : ∃ item ∈ items.take 3, jsOr item.link item.guid = none := by
          push_neg at h
          obtain ⟨item, hi, hn⟩ := h
          exact ⟨item, hi, by simpa using hn⟩
        rw [scrapeRSSFeed_failed E source category st (some items) (Or.inr ⟨items, rfl, hx⟩)]
        simp [fetchResult, ha]

theorem storeAfter_append (store : List JStr) (a b : List Opportunity) :
    storeAfter store (a ++ b) = storeAfter (storeAfter store a) b := by
  simp [storeAfter, List.foldl_append]

theorem mem_storeAfter (store : List JStr) (opps : List Opportunity) (x : JStr) :
    x ∈ storeAfter store opps ↔ x ∈ store ∨ x ∈ opps.map (fun o => o.id) := by
  induction opps generalizing store with
  | nil => simp [storeAfter]
  | cons o rest ih =>
      have e : storeAfter store (o :: rest) = storeAfter (setAdd store o.id) rest := rfl
      rw [e, ih, mem_setAdd, List.map_cons, List.mem_cons]
      tauto

/-- The loop over the opportunities of one source leaves the store with their
identifiers added in order. -/
theorem postEach_store (inp : ScanInput) (cat : Category) (opps : List Opportunity) (k : Nat)
    (st : State) :
    (postEach inp cat opps k st).1.postedOpportunities =
      storeAfter st.postedOpportunities opps := by
  induction opps generalizing k st with
  | nil => rfl
  | cons opp rest ih =>
      simp only [postEach]
      rw [ih]
      rfl

/-- The fetches of a scan return what `returnedBy` computes from the feeds, and
the scan leaves the store with exactly those identifiers added. -/
theorem scanSources_returned (E : DateEngine) (inp : ScanInput)
    (reg : List (Category × Source)) (k : Nat) (st : State) :
    fetchedOf (scanSources E inp reg k st).2 = returnedBy E inp reg st.postedOpportunities
    ∧ (scanSources E inp reg k st).1.postedOpportunities =
        storeAfter st.postedOpportunities (returnedBy E inp reg st.postedOpportunities) := by
  induction reg generalizing k st with
  | nil => exact ⟨rfl, rfl⟩
  | cons cs rest ih =>
      obtain ⟨cat, src⟩ := cs
      have hst := scrapeRSSFeed_state E src cat st (inp.feed src)
      have hfst := scrapeRSSFeed_fst E src cat st (inp.feed src)
      simp only [scanSources, returnedBy]
      generalize scrapeRSSFeed E (inp.feed src) src cat st = f at hst hfst ⊢
      obtain ⟨opps, st0⟩ := f
      simp only at hst hfst ⊢
      subst hst
      subst hfst
      obtain ⟨h1, h2⟩ := ih (k + (fetchResult E (inp.feed src) src cat
        st0.postedOpportunities).length) (postEach inp cat (fetchResult E (inp.feed src) src cat
        st0.postedOpportunities) k st0).1
      have e8 := (postEach_spec inp cat (fetchResult E (inp.feed src) src cat
        st0.postedOpportunities) k st0).2.2.2.2.2.2.2.1
      rw [postEach_store] at h1 h2
      refine ⟨?_, ?_⟩
      · simp [fetchedOf, fetchedOf_append, e8, h1]
      · rw [h2, storeAfter_append]

theorem returnedBy_append (E : DateEngine) (inp : ScanInput) (a b : List (Category × Source))
    (store : List JStr) :
    returnedBy E inp (a ++ b) store =
      returnedBy E inp a store
        ++ returnedBy E inp b (storeAfter store (returnedBy E inp a store)) := by
  induction a generalizing store with
  | nil => rfl
  | cons cs rest ih =>
      obtain ⟨cat, src⟩ := cs
      have e : ((cat, src) :: rest) ++ b = (cat, src) :: (rest ++ b) := rfl
      rw [e]
      simp only [returnedBy]
      rw [ih, storeAfter_append, List.append_assoc]

theorem returnedBy_silent (E : DateEngine) (inp : ScanInput) (reg : List (Category × Source))
    (store : List JStr) (h : ∀ cs ∈ reg, inp.feed cs.2 = none ∨ inp.feed cs.2 = some []) :
    returnedBy E inp reg store = [] := by
  induction reg generalizing store with
  | nil => rfl
  | cons cs rest ih =>
      obtain ⟨cat, src⟩ := cs
      have h0 : fetchResult E (inp.feed src) src cat store = [] := by
        rcases h (cat, src) (List.mem_cons_self _ _) with e | e
        · simp only at e
          rw [e]
          rfl
        · simp only at e
          rw [e]
          simp [fetchResult, freshOfFirstThree]
      simp only [returnedBy, h0, List.nil_append]
      exact ih _ (fun x hx => h x (List.mem_cons_of_mem _ hx))

theorem freshOfFirstThree_length (E : DateEngine) (src : Source) (cat : Category)
    (store : List JStr) (a b c : FeedItem)
    (hone : ([a, b, c].map (fun item => (opportunityOf E src cat item).id)).countP
      (fun x => store.contains x) = 1) :
    (freshOfFirstThree E src cat store [a, b, c]).length = 2 := by
  have hsum := List.length_eq_countP_add_countP
    (fun o : Opportunity => store.contains o.id) ([a, b, c].map (opportunityOf E src cat))
  have hc1 : List.countP (fun o : Opportunity => store.contains o.id)
      ([a, b, c].map (opportunityOf E src cat)) = 1 := by
    rw [List.countP_map] at hone ⊢
    exact hone
  rw [hc1] at hsum
  simp only [freshOfFirstThree, List.take_succ_cons, List.take_zero,
    ← List.countP_eq_length_filter]
  have h3 : ([a, b, c].map (opportunityOf E src cat)).length = 3 := by simp
  have hnot : List.countP (fun o : Opportunity => !store.contains o.id)
      ([a, b, c].map (opportunityOf E src cat))
      = List.countP (fun o : Opportunity => ¬ (store.contains o.id) = true)
        ([a, b, c].map (opportunityOf E src cat)) := by
    congr 1
    funext o
    simp
  rw [hnot]
  omega

/-- C4. One run of `discoverAndPostOpportunities`, whatever the outcome of the
sends. Let `R` be the opportunities the fetcher returns over the scan, as the
feeds and the store at the start determine them (`returnedBy`). Then every
opportunity of `R` is passed to `postToChannels` once, in order, and nothing
else is; `statsCounter.total` grows by the length of `R`, `statsCounter[c]` by
the number of those of category `c`, `scansToday` by one, `lastScan` is the time
the scan ended; the store becomes the old store with the identifiers of `R`
added, so every returned identifier is in it and everything it held before
still is. Instance: when one source of the table has a feed of three items,
each with a link or guid, exactly one of whose identifiers is in the store, and
the other sources return nothing, the two other items are posted, the total
grows by two and both identifiers are in the store afterwards. -/
theorem discover_bookkeeping (E : DateEngine) (registry : List (Category × Source))
    (inp : ScanInput) (st : State) :
    (deliveries (discoverAndPostOpportunities E registry inp st).2).map Prod.fst
        = returnedBy E inp registry st.postedOpportunities
    ∧ fetchedOf (discoverAndPostOpportunities E registry inp st).2
        = returnedBy E inp registry st.postedOpportunities
    ∧ (discoverAndPostOpportunities E registry inp st).1.statsCounter.total =
        st.statsCounter.total + (returnedBy E inp registry st.postedOpportunities).length
    ∧ (∀ c, (discoverAndPostOpportunities E registry inp st).1.statsCounter.get c =
        st.statsCounter.get c
          + (returnedBy E inp registry st.postedOpportunities).countP
              (fun o => decide (o.category = c)))
    ∧ (discoverAndPostOpportunities E registry inp st).1.statsCounter.scansToday =
        st.statsCounter.scansToday + 1
    ∧ (discoverAndPostOpportunities E registry inp st).1.statsCounter.lastScan =
        some inp.finishedAt
    ∧ (discoverAndPostOpportunities E registry inp st).1.postedOpportunities =
        storeAfter st.postedOpportunities (returnedBy E inp registry st.postedOpportunities)
    ∧ (∀ o ∈ returnedBy E inp registry st.postedOpportunities,
        o.id ∈ (discoverAndPostOpportunities E registry inp st).1.postedOpportunities)
    ∧ (∀ x ∈ st.postedOpportunities,
        x ∈ (discoverAndPostOpportunities E registry inp st).1.postedOpportunities)
    ∧ (∀ (before after : List (Category × Source)) (cat : Category) (src : Source)
        (a b c : FeedItem),
        registry = before ++ (cat, src) :: after →
        (∀ cs ∈ before ++ after, inp.feed cs.2 = none ∨ inp.feed cs.2 = some []) →
        inp.feed src = some [a, b, c] →
        (∀ item ∈ [a, b, c], (jsOr item.link item.guid).isSome = true) →
        ([a, b, c].map (fun item => (opportunityOf E src cat item).id)).countP
          (fun x => st.postedOpportunities.contains x) = 1 →
        (deliveries (discoverAndPostOpportunities E registry inp st).2).map Prod.fst
            = freshOfFirstThree E src cat st.postedOpportunities [a, b, c]
        ∧ (deliveries (discoverAndPostOpportunities E registry inp st).2).length = 2
        ∧ (discoverAndPostOpportunities E registry inp st).1.statsCounter.total =
            st.statsCounter.total + 2
        ∧ ∀ d ∈ deliveries (discoverAndPostOpportunities E registry inp st).2,
            d.1.id ∈ (discoverAndPostOpportunities E registry inp st).1.postedOpportunities) := by
  obtain ⟨h1, h2, h3, h4, h5, h6, h7, h8⟩ := scanSources_spec E inp registry 0 st
  obtain ⟨r1, r2⟩ := scanSources_returned E inp registry 0 st
  rw [r1] at h1 h2 h6 h7
  have hd : deliveries (discoverAndPostOpportunities E registry inp st).2
      = deliveries (scanSources E inp registry 0 st).2 := rfl
  have hf : fetchedOf (discoverAndPostOpportunities E registry inp st).2
      = fetchedOf (scanSources E inp registry 0 st).2 := rfl
  have hp : (discoverAndPostOpportunities E registry inp st).1.postedOpportunities
      = (scanSources E inp registry 0 st).1.postedOpportunities := rfl
  have ht : (discoverAndPostOpportunities E registry inp st).1.statsCounter.total
      = (scanSources E inp registry 0 st).1.statsCounter.total := rfl
  have hg : ∀ c, (discoverAndPostOpportunities E registry inp st).1.statsCounter.get c
      = (scanSources E inp registry 0 st).1.statsCounter.get c := by
    intro c
    cases c <;> rfl
  have hmem : ∀ o ∈ returnedBy E inp registry st.postedOpportunities,
      o.id ∈ (scanSources E inp registry 0 st).1.postedOpportunities := by
    intro o ho
    exact (h6 o.id).mpr (Or.inr (List.mem_map.mpr ⟨o, ho, rfl⟩))
  rw [hd, hf, hp, ht]
  refine ⟨h7, r1, h1, ?_, ?_, rfl, r2, hmem, ?_, ?_⟩
  · intro c
    rw [hg c]
    exact h2 c
  · show (scanSources E inp registry 0 st).1.statsCounter.scansToday + 1 = _
    rw [h4]
  · intro x hx
    exact (h6 x).mpr (Or.inl hx)
  · intro pre post cat src a b c hreg hsilent hfeed hlinks hone
    have hpre : returnedBy E inp pre st.postedOpportunities = [] :=
      returnedBy_silent E inp pre _ (fun x hx => hsilent x (List.mem_append_left _ hx))
    have hpost : ∀ store, returnedBy E inp post store = [] := fun store =>
      returnedBy_silent E inp post store (fun x hx => hsilent x (List.mem_append_right _ hx))
    have hall : ([a, b, c].take 3).all (fun item => (jsOr item.link item.guid).isSome) = true :=
      List.all_eq_true.mpr (by simpa using hlinks)
    have hR : returnedBy E inp registry st.postedOpportunities
        = freshOfFirstThree E src cat st.postedOpportunities [a, b, c] := by
      rw [hreg, returnedBy_append, hpre]
      simp only [returnedBy, hpost, List.nil_append, List.append_nil, storeAfter, List.foldl_nil]
      simp only [fetchResult, hfeed, hall, if_true]
    have hlen := freshOfFirstThree_length E src cat st.postedOpportunities a b c hone
    have hdl : (deliveries (scanSources E inp registry 0 st).2).length = 2 := by
      rw [← List.length_map (deliveries (scanSources E inp registry 0 st).2) Prod.fst, h7, hR,
        hlen]
    refine ⟨by rw [h7, hR], hdl, by rw [h1, hR, hlen], ?_⟩
    intro d hd2
    have : d.1 ∈ returnedBy E inp registry st.postedOpportunities := by
      rw [← h7]
      exact List.mem_map.mpr ⟨d, hd2, rfl⟩
    exact hmem d.1 this

/-! ## Text cleaning -/

theorem noTag_nil : NoTag [] := by
  intro pre post h
  cases pre <;> cases h

theorem noTag_cons (c : Nat) (rest : JStr) :
    NoTag (c :: rest) ↔ (c = LT_SIGN → GT_SIGN ∉ rest) ∧ NoTag rest := by
  constructor
  · intro h
    refine ⟨?_, ?_⟩
    · intro hc
      exact h [] rest (by rw [hc]; rfl)
    · intro pre post hp
      exact h (c :: pre) post (by rw [hp]; rfl)
  · rintro ⟨h1, h2⟩ pre post hp
    cases pre with
    | nil =>
        simp only [List.nil_append, List.cons.injEq] at hp
        rw [← hp.2]
        exact h1 hp.1
    | cons a pre =>
        simp only [List.cons_append, List.cons.injEq] at hp
        exact h2 pre post hp.2

theorem noTag_of_segment (l₁ l : JStr) (h : l₁ <:+: l) (hl : NoTag l) : NoTag l₁ := by
  obtain ⟨a, b, rfl⟩ := h
  intro pre post hp
  have := hl (a ++ pre) (post ++ b) (by rw [hp]; simp)
  intro hm
  exact this (List.mem_append_left _ hm)

theorem mem_stripTagsAux (b : Bool) (s : JStr) (x : Nat) (h : x ∈ stripTagsAux b s) : x ∈ s := by
  induction s generalizing b with
  | nil => cases b <;> simp [stripTagsAux] at h
  | cons c rest ih =>
      cases b with
      | false =>
          simp only [stripTagsAux] at h
          split at h
          · exact List.mem_cons_of_mem _ (ih _ h)
          · rcases List.mem_cons.mp h with rfl | h
            · exact List.mem_cons_self _ _
            · exact List.mem_cons_of_mem _ (ih _ h)
      | true =>
          simp only [stripTagsAux] at h
          split at h <;> exact List.mem_cons_of_mem _ (ih _ h)

theorem noTag_stripTagsAux (b : Bool) (s : JStr) : NoTag (stripTagsAux b s) := by
  induction s generalizing b with
  | nil => cases b <;> simpa [stripTagsAux] using noTag_nil
  | cons c rest ih =>
      cases b with
      | false =>
          simp only [stripTagsAux]
          split
          · exact ih _
          · rename_i hc
            rw [noTag_cons]
            refine ⟨?_, ih _⟩
            intro hlt hm
            apply hc
            have := mem_stripTagsAux _ _ _ hm
            simp [hlt, this]
      | true =>
          simp only [stripTagsAux]
          split <;> exact ih _

theorem stripTagsAux_of_noTag (s : JStr) (h : NoTag s) : stripTagsAux false s = s := by
  induction s with
  | nil => rfl
  | cons c rest ih =>
      obtain ⟨h1, h2⟩ := (noTag_cons c rest).mp h
      simp only [stripTagsAux]
      split
      · rename_i hc
        simp only [Bool.and_eq_true, beq_iff_eq] at hc
        exact absurd (by simpa using hc.2) (h1 hc.1)
      · rw [ih h2]

theorem mem_collapseSpacesAux (b : Bool) (s : JStr) (x : Nat)
    (h : x ∈ collapseSpacesAux b s) : x ∈ s ∨ x = 32 := by
  induction s generalizing b with
  | nil => simp [collapseSpacesAux] at h
  | cons c rest ih =>
      simp only [collapseSpacesAux] at h
      split at h
      · split at h
        · exact (ih _ h).imp_left (List.mem_cons_of_mem _)
        · rcases List.mem_cons.mp h with rfl | h
          · exact Or.inr rfl
          · exact (ih _ h).imp_left (List.mem_cons_of_mem _)
      · rcases List.mem_cons.mp h with rfl | h
        · exact Or.inl (List.mem_cons_self _ _)
        · exact (ih _ h).imp_left (List.mem_cons_of_mem _)

theorem noTag_collapseSpacesAux (b : Bool) (s : JStr) (h : NoTag s) :
    NoTag (collapseSpacesAux b s) := by
  induction s generalizing b with
  | nil => simpa [collapseSpacesAux] using noTag_nil
  | cons c rest ih =>
      obtain ⟨h1, h2⟩ := (noTag_cons c rest).mp h
      simp only [collapseSpacesAux]
      split
      · split
        · exact ih _ h2
        · rw [noTag_cons]
          exact ⟨fun e => absurd e (by decide), ih _ h2⟩
      · rw [noTag_cons]
        refine ⟨?_, ih _ h2⟩
        intro hc hm
        rcases mem_collapseSpacesAux _ _ _ hm with hm | hm
        · exact h1 hc hm
        · exact absurd hm (by decide)

theorem collapseSpacesAux_single (b : Bool) (s : JStr) :
    SingleSpaces (collapseSpacesAux b s)
    ∧ (b = true → ∀ c, (collapseSpacesAux b s).head? = some c → isSpace c = false) := by
  induction s generalizing b with
  | nil => simp [collapseSpacesAux, SingleSpaces]
  | cons c rest ih =>
      simp only [collapseSpacesAux]
      by_cases hc : isSpace c = true
      · simp only [hc, if_true]
        cases b with
        | true => simpa using ih true
        | false =>
            obtain ⟨⟨m, ch⟩, hd⟩ := ih true
            simp only [Bool.false_eq_true, if_false, false_implies, and_true]
            refine ⟨?_, ?_⟩
            · intro x hx hs
              rcases List.mem_cons.mp hx with rfl | hx
              · rfl
              · exact m x hx hs
            · rw [List.chain'_cons']
              refine ⟨?_, ch⟩
              intro y hy
              have := hd rfl y (by simpa using hy)
              simp [this]
      · have hc' : isSpace c = false := by simpa using hc
        obtain ⟨⟨m, ch⟩, _⟩ := ih false
        simp only [hc', Bool.false_eq_true, if_false, List.head?_cons, Option.some.injEq]
        refine ⟨⟨?_, ?_⟩, ?_⟩
        · intro x hx hs
          rcases List.mem_cons.mp hx with rfl | hx
          · rw [hc'] at hs
            cases hs
          · exact m x hx hs
        · rw [List.chain'_cons']
          refine ⟨?_, ch⟩
          intro y _
          simp [hc']
        · intro _ x hx
          rw [← hx]
          exact hc'

theorem collapseSpacesAux_of_single (b : Bool) (s : JStr) (h : SingleSpaces s)
    (hb : b = true → ∀ c, s.head? = some c → isSpace c = false) :
    collapseSpacesAux b s = s := by
  induction s generalizing b with
  | nil => rfl
  | cons c rest ih =>
      obtain ⟨m, ch⟩ := h
      rw [List.chain'_cons'] at ch
      have hrest : SingleSpaces rest :=
        ⟨fun x hx hs => m x (List.mem_cons_of_mem _ hx) hs, ch.2⟩
      simp only [collapseSpacesAux]
      by_cases hc : isSpace c = true
      · have hbf : b = false := by
          cases b with
          | false => rfl
          | true =>
              have := hb rfl c rfl
              rw [hc] at this
              cases this
        subst hbf
        have h32 := m c (List.mem_cons_self _ _) hc
        simp only [hc, if_true, Bool.false_eq_true, if_false]
        rw [ih true hrest, h32]
        intro _ y hy
        have := ch.1 y (by simpa using hy)
        simpa [hc] using this
      · rw [ih false hrest (by intro hf; cases hf)]
        simp [hc]

theorem trim_eq (s : JStr) : trim s = (s.dropWhile isSpace).rdropWhile isSpace := rfl

theorem trim_segment (s : JStr) : trim s <:+: s := by
  rw [trim_eq]
  exact List.IsInfix.trans (List.IsPrefix.isInfix ( List.rdropWhile_prefix isSpace _))
    (List.dropWhile_suffix isSpace).isInfix

theorem trim_trimmed (s : JStr) : Trimmed (trim s) := by
  refine ⟨?_, ?_⟩
  · intro c hc
    obtain ⟨t, ht⟩ := List.rdropWhile_prefix isSpace (s.dropWhile isSpace)
    rw [← trim_eq] at ht
    have hd := List.head?_dropWhile_not isSpace s
    cases hts : trim s with
    | nil => rw [hts] at hc; cases hc
    | cons a rest =>
        rw [hts] at hc ht
        simp only [List.head?_cons, Option.some.injEq] at hc
        rw [← ht] at hd
        simp only [List.cons_append, List.head?_cons] at hd
        rw [← hc]
        exact hd
  · intro c hc
    have hne : (s.dropWhile isSpace).rdropWhile isSpace ≠ [] := by
      intro h0
      rw [trim_eq, h0] at hc
      cases hc
    have := List.rdropWhile_last_not isSpace (s.dropWhile isSpace) hne
    rw [trim_eq, List.getLast?_eq_getLast _ hne] at hc
    simp only [Option.some.injEq] at hc
    rw [← hc]
    simpa using this

theorem trim_of_trimmed (s : JStr) (h : Trimmed s) : trim s = s := by
  have h1 : s.dropWhile isSpace = s := by
    rw [List.dropWhile_eq_self_iff]
    intro hl
    have := h.1 (s.get ⟨0, hl⟩) (by
      cases s with
      | nil => simp at hl
      | cons a t => rfl)
    simpa using this
  rw [trim_eq, h1, List.rdropWhile_eq_self_iff]
  intro hl
  have := h.2 (s.getLast hl) (List.getLast?_eq_getLast _ hl)
  simp [this]

theorem singleSpaces_of_segment (l₁ l : JStr) (h : l₁ <:+: l) (hl : SingleSpaces l) :
    SingleSpaces l₁ :=
  ⟨fun c hc hs => hl.1 c (h.subset hc) hs, List.Chain'.infix hl.2 h⟩

/-- What `cleanText` computes on a text that is present and not empty. -/
theorem cleanText_cons (c : Nat) (cs : JStr) :
    cleanText (some (c :: cs)) = trim (collapseSpaces (stripTags (c :: cs))) := rfl

theorem clean_props (s : JStr) :
    NoTag (trim (collapseSpaces (stripTags s)))
    ∧ SingleSpaces (trim (collapseSpaces (stripTags s)))
    ∧ Trimmed (trim (collapseSpaces (stripTags s))) :=
  ⟨noTag_of_segment _ _ (trim_segment _) (noTag_collapseSpacesAux _ _ (noTag_stripTagsAux _ _)),
    singleSpaces_of_segment _ _ (trim_segment _) (collapseSpacesAux_single false _).1,
    trim_trimmed _⟩

theorem clean_fixed (r : JStr) (h1 : NoTag r) (h2 : SingleSpaces r) (h3 : Trimmed r) :
    trim (collapseSpaces (stripTags r)) = r := by
  unfold stripTags collapseSpaces
  rw [stripTagsAux_of_noTag r h1,
    collapseSpacesAux_of_single false r h2 (by intro hf; cases hf), trim_of_trimmed r h3]

/-- C10. For every input, the string `cleanText` returns holds no markup tag
(no `<` followed anywhere later by a `>`), has every whitespace run reduced to
one space character, and has no leading or trailing whitespace; an absent or
empty input gives the empty string; and cleaning a cleaned string changes
nothing. -/
theorem cleanText_spec (text : Option JStr) :
    NoTag (cleanText text)
    ∧ SingleSpaces (cleanText text)
    ∧ Trimmed (cleanText text)
    ∧ cleanText none = []
    ∧ cleanText (some []) = []
    ∧ cleanText (some (cleanText text)) = cleanText text := by
  have hnil : NoTag [] ∧ SingleSpaces [] ∧ Trimmed [] :=
    ⟨noTag_nil, ⟨by simp, by simp⟩, ⟨by simp, by simp⟩⟩
  have hp : NoTag (cleanText text) ∧ SingleSpaces (cleanText text) ∧ Trimmed (cleanText text) := by
    match text with
    | none => exact hnil
    | some [] => exact hnil
    | some (c :: cs) => exact clean_props (c :: cs)
  refine ⟨hp.1, hp.2.1, hp.2.2, rfl, rfl, ?_⟩
  cases hr : cleanText text with
  | nil => rfl
  | cons a rest =>
      rw [hr] at hp
      rw [cleanText_cons]
      exact clean_fixed _ hp.1 hp.2.1 hp.2.2

/-! ## Discovery pipeline: the dedup invariant -/

set_option maxRecDepth 8000 in
/-- C1, at the failing input. From an empty store, a scan in which one feed
has two items with the same link passes both to `postToChannels`: the second
delivery begins while its identifier is already in `postedOpportunities`, and
the channel receives the opportunity twice. -/
theorem duplicate_link_delivered_twice :
    (deliveries (runScans sampleEngine sources
        [sampleScan [sampleItem "A" "a", sampleItem "B" "a"]] (sampleState [])).2).map
      (fun d => (d.1.id, d.2)) = [(js "2p", []), (js "2p", [js "2p"])]
    ∧ ((runScans sampleEngine sources
        [sampleScan [sampleItem "A" "a", sampleItem "B" "a"]]
        (sampleState [])).1.managedChannels.map (fun ch => ch.totalPosts)) = [2] := by
  decide

theorem dedup_nil (s0 : List JStr) : Dedup s0 [] := by
  simp [Dedup, deliveries]

theorem dedup_append (s0 s1 : List JStr) (a b : List Event) (ha : Dedup s0 a) (hb : Dedup s1 b)
    (hs : ∀ x, x ∈ s1 ↔ x ∈ s0 ∨ x ∈ (deliveries a).map (fun d => d.1.id)) :
    Dedup s0 (a ++ b) := by
  obtain ⟨a1, a2, a3⟩ := ha
  obtain ⟨b1, b2, b3⟩ := hb
  refine ⟨?_, ?_, ?_⟩
  · intro d hd
    rw [deliveries_append] at hd
    rcases List.mem_append.mp hd with hd | hd
    · exact a1 d hd
    · exact b1 d hd
  · rw [deliveries_append, List.map_append, List.nodup_append]
    refine ⟨a2, b2, ?_⟩
    intro x hxa hxb
    obtain ⟨d, hd, rfl⟩ := List.mem_map.mp hxb
    exact b3 d hd ((hs _).mpr (Or.inr hxa))
  · intro d hd
    rw [deliveries_append] at hd
    rcases List.mem_append.mp hd with hd | hd
    · exact a3 d hd
    · exact fun hx => b3 d hd ((hs _).mpr (Or.inl hx))

theorem dedup_of_no_delivery (s0 : List JStr) (e : Event) (log : List Event)
    (he : deliveries (e :: log) = deliveries log) (h : Dedup s0 log) : Dedup s0 (e :: log) := by
  unfold Dedup
  rw [he]
  exact h

/-- The loop over the opportunities of one source keeps the dedup invariant
when their identifiers are pairwise different and none is in the store. -/
theorem postEach_dedup (inp : ScanInput) (cat : Category) (opps : List Opportunity) (k : Nat)
    (st : State) (hn : (opps.map (fun o => o.id)).Nodup)
    (hs : ∀ o ∈ opps, o.id ∉ st.postedOpportunities) :
    Dedup st.postedOpportunities (postEach inp cat opps k st).2 := by
  induction opps generalizing k st with
  | nil => simpa [postEach] using dedup_nil _
  | cons opp rest ih =>
      rw [List.map_cons, List.nodup_cons] at hn
      have hrest := ih (k + 1)
        { (postToChannels (inp.sendOk k) opp st).1 with
          postedOpportunities :=
            setAdd (postToChannels (inp.sendOk k) opp st).1.postedOpportunities opp.id
          statsCounter :=
            { ((postToChannels (inp.sendOk k) opp st).1.statsCounter.bump cat) with
              total := ((postToChannels (inp.sendOk k) opp st).1.statsCounter.bump cat).total
                + 1 } } hn.2 (by
          intro o ho hm
          have p2 : (postToChannels (inp.sendOk k) opp st).1.postedOpportunities
              = st.postedOpportunities := rfl
          simp only [p2, mem_setAdd] at hm
          rcases hm with hm | hm
          · exact hs o (List.mem_cons_of_mem _ ho) hm
          · exact hn.1 (List.mem_map.mpr ⟨o, ho, hm⟩))
      obtain ⟨l1, _, _⟩ := postToChannels_log (inp.sendOk k) opp st
      have hhead : Dedup st.postedOpportunities
          (Event.deliver opp st.postedOpportunities :: (postToChannels (inp.sendOk k) opp st).2) := by
        have ho := hs opp (List.mem_cons_self _ _)
        simp [Dedup, deliveries, l1, ho]
      have := dedup_append _ _ _ _ hhead hrest (by
        intro x
        have p2 : (postToChannels (inp.sendOk k) opp st).1.postedOpportunities
            = st.postedOpportunities := rfl
        simp [p2, mem_setAdd, deliveries, l1])
      simpa [postEach] using this

theorem scanSources_dedup (E : DateEngine) (inp : ScanInput) (reg : List (Category × Source))
    (k : Nat) (st : State) (h : DistinctBatches E reg inp) :
    Dedup st.postedOpportunities (scanSources E inp reg k st).2 := by
  induction reg generalizing k st with
  | nil => simpa [scanSources] using dedup_nil _
  | cons cs rest ih =>
      obtain ⟨cat, src⟩ := cs
      have hrest : DistinctBatches E rest inp := fun x hx => h x (List.mem_cons_of_mem _ hx)
      have hst := scrapeRSSFeed_state E src cat st (inp.feed src)
      have hopps : ((scrapeRSSFeed E (inp.feed src) src cat st).1.map (fun o => o.id)).Nodup
          ∧ ∀ o ∈ (scrapeRSSFeed E (inp.feed src) src cat st).1,
              o.id ∉ st.postedOpportunities := by
        rcases scrapeRSSFeed_cases E src cat st (inp.feed src) with e | ⟨items, hf, hl, e⟩
        · rw [e]
          simp
        · refine ⟨?_, by rw [e]; exact freshOfFirstThree_not_stored E src cat _ items⟩
          rw [e]
          have hnd := h (cat, src) (List.mem_cons_self _ _) items hf
          have hsub : ((freshOfFirstThree E src cat st.postedOpportunities items).map
              (fun o => o.id)).Sublist
              ((items.take 3).map (fun item => (opportunityOf E src cat item).id)) := by
            have := (List.filter_sublist (p := fun o : Opportunity =>
              !st.postedOpportunities.contains o.id)
              ((items.take 3).map (opportunityOf E src cat))).map (fun o => o.id)
            simpa [freshOfFirstThree, List.map_map] using this
          exact hnd.sublist hsub
      simp only [scanSources]
      generalize scrapeRSSFeed E (inp.feed src) src cat st = f at hst hopps ⊢
      obtain ⟨opps, st0⟩ := f
      simp only at hst hopps ⊢
      subst hst
      have h1 := postEach_dedup inp cat opps k st0 hopps.1 hopps.2
      have h2 := ih (k + opps.length) (postEach inp cat opps k st0).1 hrest
      obtain ⟨_, _, _, _, _, e6, e7, _, _⟩ := postEach_spec inp cat opps k st0
      have hid : (deliveries (postEach inp cat opps k st0).2).map (fun d => d.1.id)
          = opps.map (fun o => o.id) := by
        have := congrArg (List.map (fun o : Opportunity => o.id)) e7
        rw [List.map_map] at this
        exact this
      have := dedup_append _ _ _ _ h1 h2 (by
        intro x
        rw [e6 x, hid])
      exact dedup_of_no_delivery _ _ _ rfl this

/-- What the code does keep of the dedup invariant: over a run of scans that
do not overlap, from any store and whatever the sends do, every delivery begins
with its identifier outside `postedOpportunities` and no identifier is
delivered twice, provided the first three items of each feed have pairwise
different identifiers. -/
theorem runScans_dedup (E : DateEngine) (registry : List (Category × Source))
    (inps : List ScanInput) (st : State) (h : ∀ inp ∈ inps, DistinctBatches E registry inp) :
    Dedup st.postedOpportunities (runScans E registry inps st).2 := by
  induction inps generalizing st with
  | nil => simpa [runScans] using dedup_nil _
  | cons inp rest ih =>
      have h1 : Dedup st.postedOpportunities (discoverAndPostOpportunities E registry inp st).2 :=
        dedup_of_no_delivery _ _ _ rfl
          (scanSources_dedup E inp registry 0 st (h inp (List.mem_cons_self _ _)))
      have h2 := ih (discoverAndPostOpportunities E registry inp st).1
        (fun x hx => h x (List.mem_cons_of_mem _ hx))
      obtain ⟨_, _, _, _, _, e6, e7, _⟩ := scanSources_spec E inp registry 0 st
      have := dedup_append _ _ _ _ h1 h2 (by
        intro x
        have hp : (discoverAndPostOpportunities E registry inp st).1.postedOpportunities
            = (scanSources E inp registry 0 st).1.postedOpportunities := rfl
        have hd : deliveries (discoverAndPostOpportunities E registry inp st).2
            = deliveries (scanSources E inp registry 0 st).2 := rfl
        rw [hp, hd, e6 x, ← e7, List.map_map]
        rfl)
      simpa [runScans] using this

set_option maxRecDepth 8000 in
theorem discover_bookkeeping_witness :
    (sources = sources.take 2
        ++ (.volunteer, ⟨js "Go Volunteer Africa", js "https://govolunteerafrica.org/feed/"⟩)
          :: sources.drop 3
      ∧ (∀ cs ∈ sources.take 2 ++ sources.drop 3,
        (sampleScanAt "Go Volunteer Africa"
            [sampleItem "A" "a", sampleItem "B" "b", sampleItem "C" "c"]).feed cs.2 = none
          ∨ (sampleScanAt "Go Volunteer Africa"
            [sampleItem "A" "a", sampleItem "B" "b", sampleItem "C" "c"]).feed cs.2 = some [])
      ∧ (sampleScanAt "Go Volunteer Africa"
          [sampleItem "A" "a", sampleItem "B" "b", sampleItem "C" "c"]).feed
          ⟨js "Go Volunteer Africa", js "https://govolunteerafrica.org/feed/"⟩
        = some [sampleItem "A" "a", sampleItem "B" "b", sampleItem "C" "c"]
      ∧ (∀ item ∈ [sampleItem "A" "a", sampleItem "B" "b", sampleItem "C" "c"],
        (jsOr item.link item.guid).isSome = true)
      ∧ ([sampleItem "A" "a", sampleItem "B" "b", sampleItem "C" "c"].map
        (fun item => (opportunityOf sampleEngine
          ⟨js "Go Volunteer Africa", js "https://govolunteerafrica.org/feed/"⟩
          .volunteer item).id)).countP
        (fun x => (sampleState [js "2q"]).postedOpportunities.contains x) = 1)
    ∧ ((deliveries (discoverAndPostOpportunities sampleEngine sources
        (sampleScanAt "Go Volunteer Africa"
          [sampleItem "A" "a", sampleItem "B" "b", sampleItem "C" "c"])
        (sampleState [js "2q"])).2).map Prod.fst
        = freshOfFirstThree sampleEngine
          ⟨js "Go Volunteer Africa", js "https://govolunteerafrica.org/feed/"⟩ .volunteer
          (sampleState [js "2q"]).postedOpportunities
          [sampleItem "A" "a", sampleItem "B" "b", sampleItem "C" "c"]
      ∧ (deliveries (discoverAndPostOpportunities sampleEngine sources
        (sampleScanAt "Go Volunteer Africa"
          [sampleItem "A" "a", sampleItem "B" "b", sampleItem "C" "c"])
        (sampleState [js "2q"])).2).length = 2
      ∧ (discoverAndPostOpportunities sampleEngine sources
        (sampleScanAt "Go Volunteer Africa"
          [sampleItem "A" "a", sampleItem "B" "b", sampleItem "C" "c"])
        (sampleState [js "2q"])).1.statsCounter.total = 0 + 2
      ∧ ∀ d ∈ deliveries (discoverAndPostOpportunities sampleEngine sources
          (sampleScanAt "Go Volunteer Africa"
            [sampleItem "A" "a", sampleItem "B" "b", sampleItem "C" "c"])
          (sampleState [js "2q"])).2,
          d.1.id ∈ (discoverAndPostOpportunities sampleEngine sources
            (sampleScanAt "Go Volunteer Africa"
              [sampleItem "A" "a", sampleItem "B" "b", sampleItem "C" "c"])
            (sampleState [js "2q"])).1.postedOpportunities)
    ∧ (discoverAndPostOpportunities sampleEngine sources
        (sampleScanAt "Go Volunteer Africa"
          [sampleItem "A" "a", sampleItem "B" "b", sampleItem "C" "c"])
        (sampleState [js "2q"])).1
      = ⟨[js "2q", js "2p", js "2r"], ⟨2, 0, 2, 0, 0, some (js "10:00:00 AM"), 1⟩,
          ⟨false, none, none⟩, [⟨js "@main", js "Main Channel", true, 0, 0⟩]⟩ :=
  ⟨⟨by decide, by decide, by decide, by decide, by decide⟩,
    (discover_bookkeeping sampleEngine sources
        (sampleScanAt "Go Volunteer Africa"
          [sampleItem "A" "a", sampleItem "B" "b", sampleItem "C" "c"])
        (sampleState [js "2q"])).2.2.2.2.2.2.2.2.2 (sources.take 2) (sources.drop 3) .volunteer
      ⟨js "Go Volunteer Africa", js "https://govolunteerafrica.org/feed/"⟩
      (sampleItem "A" "a") (sampleItem "B" "b") (sampleItem "C" "c") (by decide) (by decide)
      (by decide) (by decide) (by decide),
    by decide⟩

/-! ## Identifiers -/

theorem toInt32_range (x : Int) : -2147483648 ≤ toInt32 x ∧ toInt32 x ≤ 2147483647 := by
  unfold toInt32
  omega

/-- One round of the loop of the source is one round of the rolling hash. -/
theorem hashStep_eq (h : Int) (c : Nat) : hashStep h c = toInt32 (31 * h + (c : Int)) := by
  unfold hashStep toInt32
  omega

theorem hashLoop_eq (s : JStr) : hashLoop s = rollingHash s := by
  have hf : hashStep = fun (h : Int) (c : Nat) => toInt32 (31 * h + (c : Int)) := by
    funext h c
    exact hashStep_eq h c
  unfold hashLoop rollingHash
  rw [hf]

theorem foldl_toInt32_range (s : JStr) (init : Int)
    (hi : -2147483648 ≤ init ∧ init ≤ 2147483647) :
    -2147483648 ≤ s.foldl (fun (h : Int) (c : Nat) => toInt32 (31 * h + (c : Int))) init
    ∧ s.foldl (fun (h : Int) (c : Nat) => toInt32 (31 * h + (c : Int))) init ≤ 2147483647 := by
  induction s generalizing init with
  | nil => simpa using hi
  | cons c rest ih => exact ih _ (toInt32_range _)

theorem rollingHash_natAbs_le (s : JStr) : (rollingHash s).natAbs ≤ 2147483648 := by
  have := foldl_toInt32_range s 0 (by omega)
  unfold rollingHash
  omega

theorem digitUnit_isDigit36 (d : Nat) (h : d < 36) : IsDigit36 (digitUnit d) := by
  unfold IsDigit36 digitUnit
  split <;> omega

theorem digitValue36_digitUnit (d : Nat) (h : d < 36) : digitValue36 (digitUnit d) = d := by
  unfold digitValue36 digitUnit
  split <;> split <;> omega

theorem digitUnit_eq_zero (d : Nat) (h : digitUnit d = 48) : d = 0 := by
  unfold digitUnit at h
  split at h <;> omega

theorem valueBase36_concat (ds : JStr) (u : Nat) :
    valueBase36 (ds ++ [u]) = valueBase36 ds * 36 + digitValue36 u := by
  simp [valueBase36, List.foldl_append]

/-- The accumulator of `toRadixAux` is the tail of its result. -/
theorem toRadixAux_acc (fuel n : Nat) (acc : JStr) :
    toRadixAux 36 fuel n acc = toRadixAux 36 fuel n [] ++ acc := by
  induction fuel generalizing n acc with
  | zero => simp [toRadixAux]
  | succ fuel ih =>
      simp only [toRadixAux]
      split
      · simp
      · rw [ih (n / 36) (digitUnit (n % 36) :: acc), ih (n / 36) [digitUnit (n % 36)]]
        simp

/-- With enough fuel, `toRadixAux` writes `n` in base 36: digits `0-9a-z` only,
denoting `n`, at least one digit, and no leading `0` unless `n` is 0. -/
theorem toRadixAux_spec (fuel n : Nat) (h : n < fuel) :
    (∀ u ∈ toRadixAux 36 fuel n [], IsDigit36 u)
    ∧ valueBase36 (toRadixAux 36 fuel n []) = n
    ∧ ∃ d rest, toRadixAux 36 fuel n [] = d :: rest ∧ (d = 48 → n = 0) := by
  induction fuel generalizing n with
  | zero => omega
  | succ fuel ih =>
      simp only [toRadixAux]
      split
      · rename_i hn
        refine ⟨?_, ?_, _, _, rfl, digitUnit_eq_zero n⟩
        · intro u hu
          rw [List.mem_singleton] at hu
          rw [hu]
          exact digitUnit_isDigit36 n hn
        · simp [valueBase36, digitValue36_digitUnit n hn]
      · rename_i hn
        have hq : n / 36 < fuel := by omega
        have hr : n % 36 < 36 := Nat.mod_lt _ (by omega)
        obtain ⟨h1, h2, d, rest, h3, h4⟩ := ih (n / 36) hq
        rw [toRadixAux_acc]
        refine ⟨?_, ?_, d, rest ++ [digitUnit (n % 36)], ?_, ?_⟩
        · intro u hu
          rcases List.mem_append.mp hu with hu | hu
          · exact h1 u hu
          · rw [List.mem_singleton] at hu
            rw [hu]
            exact digitUnit_isDigit36 _ hr
        · rw [valueBase36_concat, h2, digitValue36_digitUnit _ hr]
          omega
        · rw [h3]
          rfl
        · intro hd
          have := h4 hd
          omega

theorem toRadix_spec (n : Nat) :
    (∀ u ∈ toRadix 36 n, IsDigit36 u)
    ∧ valueBase36 (toRadix 36 n) = n
    ∧ ∃ d rest, toRadix 36 n = d :: rest ∧ (d = 48 → n = 0) :=
  toRadixAux_spec (n + 1) n (Nat.lt_succ_self n)

/-- C11. The identifier `generateOpportunityId` gives a string depends on that
string alone. It is the base-36 writing of `|h|`, where `h` starts at 0 and is
replaced, for each UTF-16 code unit `c` of the string in order, by `31 * h + c`
wrapped to a signed 32-bit integer: the identifier is made of the digits `0-9`
and `a-z`, has at least one digit and no leading `0` unless it is "0", and
denotes `|h|`, an integer from 0 to 2^31 inclusive. The empty string gives "0". -/
theorem generateOpportunityId_spec (s : JStr) :
    (∃ id, generateOpportunityId (some s) = some id
      ∧ (∀ u ∈ id, IsDigit36 u)
      ∧ valueBase36 id = (rollingHash s).natAbs
      ∧ (∃ d rest, id = d :: rest ∧ (d = 48 → id = js "0"))
      ∧ valueBase36 id ≤ 2 ^ 31)
    ∧ generateOpportunityId (some s) = some (toRadix 36 (rollingHash s).natAbs)
    ∧ generateOpportunityId (some (js "")) = some (js "0") := by
  have e : generateOpportunityId (some s) = some (toRadix 36 (rollingHash s).natAbs) := by
    simp only [generateOpportunityId, hashLoop_eq]
  obtain ⟨h1, h2, d, rest, h3, h4⟩ := toRadix_spec (rollingHash s).natAbs
  refine ⟨⟨_, e, h1, h2, ⟨d, rest, h3, ?_⟩, ?_⟩, e, by decide⟩
  · intro hd
    rw [h4 hd]
    decide
  · rw [h2]
    have := rollingHash_natAbs_le s
    norm_num
    exact this

end O4A
